import Mathlib

/-!
Verification development for the dcm-sip-builder metadata compiler and
XML schema validator.  The definitions below are a shallow embedding of
src/dcm_sip_builder/components/compiler.py,
src/dcm_sip_builder/components/validator.py and
src/dcm_sip_builder/views/build.py.

Python dictionaries are embedded as association lists in insertion
order, Python `sorted` (a stable sort) is embedded as
`List.insertionSort` (also a stable sort, hence extensionally equal on
the same total preorder), lxml element trees are embedded as the `Xml`
inductive, exceptions are embedded as `Option`/`Except`, and the
`dcm_common.Logger` is embedded as a list of tagged log entries.
-/

namespace SipBuilder

/-! ## Character / string comparison (model of Python string ordering)

Python compares strings lexicographically by code point.  `listLe` is
the corresponding reflexive total lexicographic order on the
underlying character lists.
-/

def charLtB (a b : Char) : Bool := decide (a.toNat < b.toNat)

def listLe : List Char → List Char → Bool
  | [], _ => true
  | _ :: _, [] => false
  | a :: as, b :: bs => if a = b then listLe as bs else charLtB a b

/-- Model of Python string comparison s1 <= s2 (code-point lexicographic). -/
def strLe (a b : String) : Bool := listLe a.data b.data

theorem charLtB_asymm {a b : Char} (h : charLtB a b = true) : charLtB b a = false := by
  simp only [charLtB, decide_eq_true_eq] at h
  simp only [charLtB, decide_eq_false_iff_not]
  omega

theorem charLtB_total {a b : Char} (hne : a ≠ b) :
    charLtB a b = true ∨ charLtB b a = true := by
  simp only [charLtB, decide_eq_true_eq]
  have : a.toNat ≠ b.toNat := by
    intro h
    apply hne
    unfold Char.toNat at h
    exact Char.eq_of_val_eq (UInt32.toNat.inj h)
  omega

theorem charLtB_trans {a b c : Char} (h1 : charLtB a b = true)
    (h2 : charLtB b c = true) : charLtB a c = true := by
  simp only [charLtB, decide_eq_true_eq] at h1 h2 ⊢
  omega

theorem listLe_total : ∀ x y : List Char, listLe x y = true ∨ listLe y x = true
  | [], _ => Or.inl rfl
  | _ :: _, [] => Or.inr rfl
  | a :: as, b :: bs => by
    by_cases hab : a = b
    · subst hab
      simpa [listLe] using listLe_total as bs
    · have hba : b ≠ a := fun h => hab h.symm
      rcases charLtB_total hab with h | h
      · exact Or.inl (by simp [listLe, hab, h])
      · exact Or.inr (by simp [listLe, hba, h])

theorem listLe_refl : ∀ x : List Char, listLe x x = true
  | [] => rfl
  | a :: as => by simp [listLe, listLe_refl as]

theorem listLe_antisymm : ∀ {x y : List Char},
    listLe x y = true → listLe y x = true → x = y
  | [], [], _, _ => rfl
  | [], _ :: _, _, h2 => by simp [listLe] at h2
  | _ :: _, [], h1, _ => by simp [listLe] at h1
  | a :: as, b :: bs, h1, h2 => by
    by_cases hab : a = b
    · subst hab
      simp only [listLe, if_pos rfl] at h1 h2
      exact congrArg (a :: ·) (listLe_antisymm h1 h2)
    · have hba : b ≠ a := fun h => hab h.symm
      simp only [listLe, if_neg hab] at h1
      simp only [listLe, if_neg hba] at h2
      exact absurd h2 (by simp [charLtB_asymm h1])

theorem listLe_trans : ∀ {x y z : List Char},
    listLe x y = true → listLe y z = true → listLe x z = true
  | [], _, _, _, _ => rfl
  | _ :: _, [], _, h1, _ => by simp [listLe] at h1
  | _ :: _, _ :: _, [], _, h2 => by simp [listLe] at h2
  | a :: as, b :: bs, c :: cs, h1, h2 => by
    by_cases hab : a = b
    · subst hab
      by_cases hac : a = c
      · subst hac
        simp only [listLe, if_pos rfl] at h1 h2 ⊢
        exact listLe_trans h1 h2
      · simp only [listLe, if_pos rfl] at h1
        simpa [listLe, hac] using h2
    · by_cases hbc : b = c
      · subst hbc
        simpa [listLe, hab] using h1
      · simp only [listLe, if_neg hab] at h1
        simp only [listLe, if_neg hbc] at h2
        have hac : a ≠ c := by
          intro h
          subst h
          exact absurd (charLtB_trans h1 h2) (by simp [charLtB])
        simp [listLe, hac, charLtB_trans h1 h2]

/-! ## Decimal rendering of natural numbers (model of Python str(int))

Implemented with explicit fuel so that it reduces definitionally; the
fuel n + 1 always suffices since n / 10 decreases.
-/

def digitChar (n : Nat) : Char := Char.ofNat (48 + n)

def pyNatGo : Nat → Nat → List Char
  | 0, _ => []
  | fuel + 1, n =>
      if n < 10 then [digitChar n]
      else pyNatGo fuel (n / 10) ++ [digitChar (n % 10)]

def pyNatL (n : Nat) : List Char := pyNatGo (n + 1) n

/-- Model of Python str(n) for a non-negative int n. -/
def pyNat (n : Nat) : String := String.mk (pyNatL n)

theorem pyNatGo_congr : ∀ n f g : Nat, n < f → n < g →
    pyNatGo f n = pyNatGo g n := by
  intro n
  induction n using Nat.strong_induction_on with
  | _ n ih =>
    intro f g hf hg
    obtain ⟨f, rfl⟩ : ∃ k, f = k + 1 := ⟨f - 1, by omega⟩
    obtain ⟨g, rfl⟩ : ∃ k, g = k + 1 := ⟨g - 1, by omega⟩
    by_cases h10 : n < 10
    · simp [pyNatGo, h10]
    · have hdiv : n / 10 < n := Nat.div_lt_self (by omega) (by omega)
      simp only [pyNatGo, if_neg h10]
      rw [ih (n / 10) hdiv f g (by omega) (by omega)]

theorem pyNatGo_succ (k m : Nat) :
    pyNatGo (k + 1) m =
      if m < 10 then [digitChar m] else pyNatGo k (m / 10) ++ [digitChar (m % 10)] :=
  rfl

theorem pyNatL_eq (n : Nat) :
    pyNatL n = if n < 10 then [digitChar n]
               else pyNatL (n / 10) ++ [digitChar (n % 10)] := by
  by_cases h10 : n < 10
  · show pyNatGo (n + 1) n = _
    rw [pyNatGo_succ, if_pos h10, if_pos h10]
  · show pyNatGo (n + 1) n = _
    rw [pyNatGo_succ, if_neg h10, if_neg h10]
    show pyNatGo n (n / 10) ++ _ = pyNatGo (n / 10 + 1) (n / 10) ++ _
    rw [pyNatGo_congr (n / 10) n (n / 10 + 1) (by omega) (by omega)]

theorem pyNatL_ne_nil (n : Nat) : pyNatL n ≠ [] := by
  rw [pyNatL_eq]
  by_cases h10 : n < 10 <;> simp [h10]

theorem digitChar_inj : ∀ a < 10, ∀ b < 10, digitChar a = digitChar b → a = b := by
  decide

theorem digitChar_ne_dash : ∀ a < 10, digitChar a ≠ '-' := by
  decide

theorem pyNatL_digits (n : Nat) : ∀ c ∈ pyNatL n, c ≠ '-' := by
  induction n using Nat.strong_induction_on with
  | _ n ih =>
    rw [pyNatL_eq]
    by_cases h10 : n < 10
    · simp only [if_pos h10, List.mem_singleton]
      intro c hc
      subst hc
      exact digitChar_ne_dash n h10
    · have hdiv : n / 10 < n := Nat.div_lt_self (by omega) (by omega)
      simp only [if_neg h10, List.mem_append, List.mem_singleton]
      intro c hc
      rcases hc with hc | hc
      · exact ih (n / 10) hdiv c hc
      · subst hc
        exact digitChar_ne_dash (n % 10) (Nat.mod_lt n (by omega))

theorem pyNatL_inj : ∀ {a b : Nat}, pyNatL a = pyNatL b → a = b := by
  intro a
  induction a using Nat.strong_induction_on with
  | _ a ih =>
    intro b h
    rw [pyNatL_eq a, pyNatL_eq b] at h
    by_cases ha : a < 10 <;> by_cases hb : b < 10
    · simp only [if_pos ha, if_pos hb, List.cons.injEq, and_true] at h
      exact digitChar_inj a ha b hb h
    · exfalso
      simp only [if_pos ha, if_neg hb] at h
      have : pyNatL (b / 10) ≠ [] := pyNatL_ne_nil _
      cases hpb : pyNatL (b / 10) with
      | nil => exact this hpb
      | cons x xs =>
        rw [hpb] at h
        have := congrArg List.length h
        simp at this
    · exfalso
      simp only [if_neg ha, if_pos hb] at h
      have : pyNatL (a / 10) ≠ [] := pyNatL_ne_nil _
      cases hpa : pyNatL (a / 10) with
      | nil => exact this hpa
      | cons x xs =>
        rw [hpa] at h
        have := congrArg List.length h
        simp at this
    · simp only [if_neg ha, if_neg hb] at h
      have hlen : [digitChar (a % 10)].length = [digitChar (b % 10)].length := rfl
      obtain ⟨h1, h2⟩ := List.append_inj' h hlen
      have hdiv : a / 10 < a := Nat.div_lt_self (by omega) (by omega)
      have hq : a / 10 = b / 10 := ih (a / 10) hdiv h1
      have hr : a % 10 = b % 10 := by
        have := List.head_eq_of_cons_eq h2
        exact digitChar_inj _ (Nat.mod_lt a (by omega)) _ (Nat.mod_lt b (by omega)) this
      omega

theorem pyNat_inj {a b : Nat} (h : pyNat a = pyNat b) : a = b := by
  apply pyNatL_inj
  exact congrArg String.data h

/-! ## Diagnostic log (model of dcm_common.Logger entries) -/

inductive LogCtx where
  | error
  | warning
  | info
deriving DecidableEq, Repr

structure LogEntry where
  ctx : LogCtx
  body : String
deriving DecidableEq, Repr

def hasErrorEntry (log : List LogEntry) : Bool :=
  log.any (fun e => e.ctx = LogCtx.error)

/-! ## XML elements (model of lxml etree elements)

An lxml element has a tag, attributes, text and child elements.
Namespace declarations (nsmap) only affect prefix rendering on
serialization and are not modelled; tags are fully qualified strings
as in the source (Namespace.__add__).
-/

inductive Xml where
  | elem (tag : String) (attrs : List (String × String)) (text : Option String)
      (children : List Xml)

def Xml.tag : Xml → String
  | .elem t _ _ _ => t

def Xml.attrs : Xml → List (String × String)
  | .elem _ a _ _ => a

def Xml.text : Xml → Option String
  | .elem _ _ x _ => x

def Xml.children : Xml → List Xml
  | .elem _ _ _ c => c

def Xml.getAttr (x : Xml) (key : String) : Option String :=
  x.attrs.lookup key

/-! ## Namespaces (model of compiler.XMLNS; Namespace.__str__ wraps the
identifier in curly brackets and string addition prepends it to a tag) -/

namespace XMLNS

def oai : String := "\x7bhttp://www.openarchives.org/OAI/2.0/\x7d"
def mets : String := "\x7bhttp://www.exlibrisgroup.com/xsd/dps/rosettaMets\x7d"
def dc : String := "\x7bhttp://purl.org/dc/elements/1.1/\x7d"
def dcterms : String := "\x7bhttp://purl.org/dc/terms/\x7d"
def rosetta : String := "\x7bhttp://www.exlibrisgroup.com/dps\x7d"
def dnx : String := "\x7bhttp://www.exlibrisgroup.com/dps/dnx\x7d"
def xlink : String := "\x7bhttp://www.w3.org/1999/xlink\x7d"

end XMLNS

/-! ## Stable sorting (model of Python sorted)

Python sorted is a stable sort; List.insertionSort is a stable sort;
a stable sort of a list by a total preorder is unique, so the two
agree extensionally.
-/

def strRel (a b : String) : Prop := listLe a.data b.data = true

instance : DecidableRel strRel := fun a b => by
  unfold strRel
  infer_instance

instance : IsTotal String strRel :=
  ⟨fun a b => listLe_total a.data b.data⟩

instance : IsTrans String strRel :=
  ⟨fun _ _ _ h1 h2 => listLe_trans h1 h2⟩

/-- Model of Python sorted() on a list of strings. -/
def sortedStrings (l : List String) : List String :=
  l.insertionSort strRel

/-! ## Payload data model (model of compiler.File / compiler.Representation) -/

structure File where
  index : Nat
  href : String
  loctype : String := "URL"
  checksums : List (String × String) := []
deriving DecidableEq, Repr

structure Representation where
  index : Nat
  preservation_type : String
  usage_type : String := "VIEW"
  files : List File := []
deriving DecidableEq, Repr

/-- A bag-info value is a single string or a list of strings. -/
inductive BagVal where
  | str (s : String)
  | list (l : List String)
deriving DecidableEq, Repr

/-- Model of bag-info.txt metadata: a dict from key to value in
insertion order. -/
abbrev Baginfo := List (String × BagVal)

/-- Model of the manifests attribute: algorithm name to a dict from
payload path to digest. -/
abbrev Manifests := List (String × List (String × String))

/-- Model of the payload_files attribute: the three payload categories,
each possibly absent; modified_master and derivative_copy map a
representation name to its file list. -/
structure PayloadFiles where
  preservation_master : Option (List String) := none
  modified_master : Option (List (String × List String)) := none
  derivative_copy : Option (List (String × List String)) := none

/-- Model of MetadataCompiler._listify. -/
def listify : BagVal → List String
  | .str s => [s]
  | .list l => l

/-! ## Representation Deriver
(model of IECompiler._generate_representation_info) -/

/-- Checksums of one file: the dict comprehension looks the path up in
every manifest algorithm (upper-cased key); a missing path raises
KeyError, modelled as none. -/
def fileChecksums (manifests : Manifests) (file : String) :
    Option (List (String × String)) :=
  match manifests with
  | [] => some []
  | kv :: rest => do
      let d ← kv.2.lookup file
      let tail ← fileChecksums rest file
      some ((kv.1.toUpper, d) :: tail)

/-- Files of one representation, in the given order, indexed from i
(the source enumerates the sorted file list with start=1). -/
def genFiles (manifests : Manifests) : Nat → List String → Option (List File)
  | _, [] => some []
  | i, f :: rest => do
      let cs ← fileChecksums manifests f
      let tail ← genFiles manifests (i + 1) rest
      some (⟨i, f, "URL", cs⟩ :: tail)

/-- Model of the Python format string f-underscore-02d used for the
second and later representations of a category. -/
def pad2 (n : Nat) : String :=
  if n < 10 then "0" ++ pyNat n else pyNat n

/-- preservationType of the category entry number repId (1-based): no
suffix for the first, two-digit zero-padded suffix otherwise. -/
def suffixedName (base : String) (repId : Nat) : String :=
  if repId > 1 then base ++ "_" ++ pad2 repId else base

/-- One category (modified_master or derivative_copy): iterate the
sorted representation names, keeping the shared index counter and the
per-category enumeration counter in lockstep as in the source. -/
def genReps (manifests : Manifests) (repName : String)
    (entries : List (String × List String)) :
    Nat → Nat → List String → Option (List Representation)
  | _, _, [] => some []
  | idx, repId, k :: rest => do
      let fl ← entries.lookup k
      let fs ← genFiles manifests 1 (sortedStrings fl)
      let tail ← genReps manifests repName entries (idx + 1) (repId + 1) rest
      some (⟨idx, suffixedName repName repId, "VIEW", fs⟩ :: tail)

/-- The preservation_master block of _generate_representation_info:
if the category is present it contributes one representation with
index 1 and type PRESERVATION_MASTER whose files are sorted and
enumerated from 1. -/
def presRepresentations (pf : PayloadFiles) (manifests : Manifests) :
    Option (List Representation) :=
  match pf.preservation_master with
  | none => some []
  | some files => do
      let fs ← genFiles manifests 1 (sortedStrings files)
      some [(⟨1, "PRESERVATION_MASTER", "VIEW", fs⟩ : Representation)]

/-- The loop body of _generate_representation_info for one of the two
dict-valued categories: entries are visited in sorted key order. -/
def catRepresentations (manifests : Manifests) (repName : String)
    (cat : Option (List (String × List String))) (startIdx : Nat) :
    Option (List Representation) :=
  match cat with
  | none => some []
  | some entries =>
      genReps manifests repName entries startIdx 1
        (sortedStrings (entries.map Prod.fst))

/-- Model of IECompiler._generate_representation_info: the
preservation_master category first (if present), then the
modified_master entries sorted by name, then the derivative_copy
entries sorted by name, with one index counter starting at 1. -/
def generateRepresentationInfo (pf : PayloadFiles) (manifests : Manifests) :
    Option (List Representation) := do
  let presPart ← presRepresentations pf manifests
  let mmPart ←
    catRepresentations manifests "MODIFIED_MASTER" pf.modified_master
      (presPart.length + 1)
  let dcPart ←
    catRepresentations manifests "DERIVATIVE_COPY" pf.derivative_copy
      (presPart.length + mmPart.length + 1)
  some (presPart ++ mmPart ++ dcPart)

/-! ## Claim-side descriptions of the derived representation order
(these follow the words of the specification, for comparison with the
embedded source above) -/

/-- Types of the representations of one category, as claimed: no
suffix for the first, two-digit zero-padded _02, _03, ... suffixes for
the rest. -/
def specSuffixTypes (base : String) (n : Nat) : List String :=
  (List.range' 1 n).map (suffixedName base)

/-- Number of representations contributed by a category. -/
def catCount : Option (List (String × List String)) → Nat
  | none => 0
  | some entries => entries.length

/-- The claimed type order: preservation_master first (if present),
then the modified_master entries, then the derivative_copy entries,
each category suffixed independently. -/
def specTypeOrder (pf : PayloadFiles) : List String :=
  (match pf.preservation_master with
   | some _ => ["PRESERVATION_MASTER"]
   | none => []) ++
  specSuffixTypes "MODIFIED_MASTER" (catCount pf.modified_master) ++
  specSuffixTypes "DERIVATIVE_COPY" (catCount pf.derivative_copy)

/-- The claimed per-representation file lists of one category: the
entries ordered by sorted representation name, each holding its files
sorted lexicographically. -/
def catFileLists : Option (List (String × List String)) → List (List String)
  | none => []
  | some entries =>
      (sortedStrings (entries.map Prod.fst)).map
        (fun k => sortedStrings ((entries.lookup k).getD []))

/-- The claimed file order across all representations. -/
def specFileOrder (pf : PayloadFiles) : List (List String) :=
  (match pf.preservation_master with
   | some files => [sortedStrings files]
   | none => []) ++
  catFileLists pf.modified_master ++ catFileLists pf.derivative_copy

/-- All payload paths mentioned in a payload_files structure. -/
def payloadPaths (pf : PayloadFiles) : List String :=
  pf.preservation_master.getD [] ++
  ((pf.modified_master.getD []).map Prod.snd).flatten ++
  ((pf.derivative_copy.getD []).map Prod.snd).flatten

/-! ## Characterization lemmas for the Representation Deriver -/

theorem lookup_isSome_of_mem_keys {α : Type} {k : String} :
    ∀ {l : List (String × α)}, k ∈ l.map Prod.fst → (l.lookup k).isSome
  | [], h => by simp at h
  | a :: rest, h => by
    simp only [List.map_cons, List.mem_cons] at h
    by_cases hk : k = a.1
    · simp [List.lookup, hk]
    · have : k ∈ rest.map Prod.fst := by
        rcases h with h | h
        · exact absurd h hk
        · exact h
      simpa [List.lookup, beq_eq_false_iff_ne.mpr hk] using
        lookup_isSome_of_mem_keys this

theorem mem_of_lookup_eq_some {α : Type} {k : String} {v : α} :
    ∀ {l : List (String × α)}, l.lookup k = some v → (k, v) ∈ l
  | [], h => by simp [List.lookup] at h
  | a :: rest, h => by
    by_cases hk : k = a.1
    · subst hk
      cases a with
      | mk a1 a2 =>
        simp only [List.lookup, beq_self_eq_true] at h
        cases h
        exact List.mem_cons_self _ _
    · simp only [List.lookup, beq_eq_false_iff_ne.mpr hk] at h
      exact List.mem_cons_of_mem _ (mem_of_lookup_eq_some h)

theorem sortedStrings_perm (l : List String) : (sortedStrings l).Perm l :=
  List.perm_insertionSort strRel l

theorem sortedStrings_sorted (l : List String) :
    List.Sorted strRel (sortedStrings l) :=
  List.sorted_insertionSort strRel l

theorem sortedStrings_length (l : List String) :
    (sortedStrings l).length = l.length :=
  (sortedStrings_perm l).length_eq

theorem fileChecksums_eq_some {f : String} :
    ∀ {m : Manifests} {cs}, fileChecksums m f = some cs →
      cs = m.map (fun a => (a.1.toUpper, (a.2.lookup f).getD ""))
  | [], cs, h => by simpa [fileChecksums] using h.symm
  | kv :: rest, cs, h => by
    cases hd : kv.2.lookup f with
    | none => simp [fileChecksums, hd] at h
    | some d =>
      cases htail : fileChecksums rest f with
      | none => simp [fileChecksums, hd, htail] at h
      | some tail =>
        simp only [fileChecksums, hd, htail, Option.some_bind,
          Option.bind_eq_bind, Option.some.injEq] at h
        subst h
        simp [hd, fileChecksums_eq_some htail]

theorem fileChecksums_isSome {f : String} :
    ∀ {m : Manifests}, (∀ a ∈ m, (a.2.lookup f).isSome) →
      (fileChecksums m f).isSome
  | [], _ => by simp [fileChecksums]
  | kv :: rest, h => by
    obtain ⟨d, hd⟩ := Option.isSome_iff_exists.mp (h kv (List.mem_cons_self kv rest))
    obtain ⟨tail, htail⟩ := Option.isSome_iff_exists.mp
      (fileChecksums_isSome (fun a ha => h a (List.mem_cons_of_mem _ ha)))
    simp [fileChecksums, hd, htail]

theorem genFiles_eq_some {m : Manifests} :
    ∀ {i : Nat} {fs : List String} {l : List File}, genFiles m i fs = some l →
      l.map File.href = fs ∧
      l.map File.index = List.range' i l.length ∧
      ∀ fl ∈ l, fl.checksums =
        m.map (fun a => (a.1.toUpper, (a.2.lookup fl.href).getD ""))
  | i, [], l, h => by
    simp only [genFiles, Option.some.injEq] at h
    subst h
    simp [List.range']
  | i, f :: rest, l, h => by
    cases hcs : fileChecksums m f with
    | none => simp [genFiles, hcs] at h
    | some cs =>
      cases htail : genFiles m (i + 1) rest with
      | none => simp [genFiles, hcs, htail] at h
      | some tail =>
        simp only [genFiles, hcs, htail, Option.some_bind,
          Option.bind_eq_bind, Option.some.injEq] at h
        subst h
        obtain ⟨hhref, hidx, hsum⟩ := genFiles_eq_some htail
        refine ⟨by simp [hhref], by simp [hidx, List.range'], ?_⟩
        intro fl hfl
        rcases List.mem_cons.mp hfl with hfl | hfl
        · subst hfl
          simpa using fileChecksums_eq_some hcs
        · exact hsum fl hfl

theorem genFiles_isSome {m : Manifests} :
    ∀ (i : Nat) (fs : List String),
      (∀ f ∈ fs, ∀ a ∈ m, (a.2.lookup f).isSome) → (genFiles m i fs).isSome
  | _, [], _ => by simp [genFiles]
  | i, f :: rest, h => by
    obtain ⟨cs, hcs⟩ := Option.isSome_iff_exists.mp
      (fileChecksums_isSome (h f (List.mem_cons_self f rest)))
    obtain ⟨tail, htail⟩ := Option.isSome_iff_exists.mp
      (genFiles_isSome (i + 1) rest (fun g hg => h g (List.mem_cons_of_mem _ hg)))
    simp [genFiles, hcs, htail]

theorem genReps_eq_some {m : Manifests} {name : String}
    {entries : List (String × List String)} :
    ∀ {idx repId : Nat} {keys : List String} {rs : List Representation},
      genReps m name entries idx repId keys = some rs →
      rs.length = keys.length ∧
      rs.map Representation.index = List.range' idx keys.length ∧
      rs.map Representation.preservation_type =
        (List.range' repId keys.length).map (suffixedName name) ∧
      rs.map (fun r => r.files.map File.href) =
        keys.map (fun k => sortedStrings ((entries.lookup k).getD [])) ∧
      ∀ r ∈ rs,
        r.files.map File.index = List.range' 1 r.files.length ∧
        List.Sorted strRel (r.files.map File.href) ∧
        ∀ fl ∈ r.files, fl.checksums =
          m.map (fun a => (a.1.toUpper, (a.2.lookup fl.href).getD ""))
  | idx, repId, [], rs, h => by
    simp only [genReps, Option.some.injEq] at h
    subst h
    simp [List.range']
  | idx, repId, k :: rest, rs, h => by
    cases hfl : entries.lookup k with
    | none => simp [genReps, hfl] at h
    | some fl =>
      cases hfs : genFiles m 1 (sortedStrings fl) with
      | none => simp [genReps, hfl, hfs] at h
      | some fs =>
        cases htail : genReps m name entries (idx + 1) (repId + 1) rest with
        | none => simp [genReps, hfl, hfs, htail] at h
        | some tail =>
          simp only [genReps, hfl, hfs, htail, Option.some_bind,
            Option.bind_eq_bind, Option.some.injEq] at h
          subst h
          obtain ⟨hlen, hidx, htype, hfiles, hper⟩ := genReps_eq_some htail
          obtain ⟨hhref, hfidx, hsum⟩ := genFiles_eq_some hfs
          refine ⟨by simp [hlen], by simp [hidx, List.range'],
            by simp [htype, List.range'], by simp [hfiles, hfl, hhref], ?_⟩
          intro r hr
          rcases List.mem_cons.mp hr with hr | hr
          · subst hr
            refine ⟨by simpa [hhref] using hfidx, ?_, hsum⟩
            rw [hhref]
            exact sortedStrings_sorted fl
          · exact hper r hr

theorem genReps_isSome {m : Manifests} {name : String}
    {entries : List (String × List String)} :
    ∀ (idx repId : Nat) (keys : List String),
      (∀ k ∈ keys, k ∈ entries.map Prod.fst) →
      (∀ f ∈ (entries.map Prod.snd).flatten, ∀ a ∈ m, (a.2.lookup f).isSome) →
      (genReps m name entries idx repId keys).isSome
  | _, _, [], _, _ => by simp [genReps]
  | idx, repId, k :: rest, hk, hf => by
    obtain ⟨fl, hfl⟩ := Option.isSome_iff_exists.mp
      (lookup_isSome_of_mem_keys (hk k (List.mem_cons_self k rest)))
    have hmem : ∀ f ∈ sortedStrings fl, ∀ a ∈ m, (a.2.lookup f).isSome := by
      intro f hfmem a ha
      apply hf f _ a ha
      have : f ∈ fl := (sortedStrings_perm fl).mem_iff.mp hfmem
      have hin : (k, fl) ∈ entries := mem_of_lookup_eq_some hfl
      exact List.mem_flatten.mpr ⟨fl, List.mem_map_of_mem Prod.snd hin, this⟩
    obtain ⟨fs, hfs⟩ := Option.isSome_iff_exists.mp
      (genFiles_isSome 1 (sortedStrings fl) hmem)
    obtain ⟨tail, htail⟩ := Option.isSome_iff_exists.mp
      (@genReps_isSome m name entries (idx + 1) (repId + 1) rest
        (fun x hx => hk x (List.mem_cons_of_mem _ hx)) hf)
    simp [genReps, hfl, hfs, htail]

theorem range'_append_one : ∀ (s a b : Nat),
    List.range' s a ++ List.range' (s + a) b = List.range' s (a + b)
  | s, 0, b => by simp [List.range']
  | s, a + 1, b => by
    rw [show a + 1 + b = (a + b) + 1 by omega]
    show s :: List.range' (s + 1) a ++ List.range' (s + (a + 1)) b
        = s :: List.range' (s + 1) (a + b)
    rw [show s + (a + 1) = (s + 1) + a by omega]
    rw [List.cons_append, range'_append_one (s + 1) a b]

/-- Full characterization of a successful derivation: category order,
per-category suffixed types, one dense index counter starting at 1,
dense 1-based sorted file lists and checksum contents. -/
theorem generateRepresentationInfo_eq_some {pf : PayloadFiles} {m : Manifests}
    {reps : List Representation}
    (h : generateRepresentationInfo pf m = some reps) :
    reps.map Representation.preservation_type = specTypeOrder pf ∧
    reps.map Representation.index = List.range' 1 reps.length ∧
    reps.map (fun r => r.files.map File.href) = specFileOrder pf ∧
    ∀ r ∈ reps,
      r.files.map File.index = List.range' 1 r.files.length ∧
      List.Sorted strRel (r.files.map File.href) ∧
      ∀ fl ∈ r.files, fl.checksums =
        m.map (fun a => (a.1.toUpper, (a.2.lookup fl.href).getD "")) := by
  simp only [generateRepresentationInfo, Option.bind_eq_bind,
    Option.bind_eq_some, Option.some.injEq] at h
  obtain ⟨presPart, hpres, mmPart, hmm, dcPart, hdc, hreps⟩ := h
  subst hreps
  -- characterize the preservation_master part
  have hpresChar :
      presPart.map Representation.preservation_type =
        (match pf.preservation_master with
         | some _ => ["PRESERVATION_MASTER"] | none => []) ∧
      presPart.map Representation.index = List.range' 1 presPart.length ∧
      presPart.map (fun r => r.files.map File.href) =
        (match pf.preservation_master with
         | some files => [sortedStrings files] | none => []) ∧
      ∀ r ∈ presPart,
        r.files.map File.index = List.range' 1 r.files.length ∧
        List.Sorted strRel (r.files.map File.href) ∧
        ∀ fl ∈ r.files, fl.checksums =
          m.map (fun a => (a.1.toUpper, (a.2.lookup fl.href).getD "")) := by
    cases hp : pf.preservation_master with
    | none =>
      rw [presRepresentations, hp] at hpres
      cases hpres
      simp [List.range', hp]
    | some files =>
      rw [presRepresentations, hp] at hpres
      simp only [Option.bind_eq_bind, Option.bind_eq_some,
        Option.some.injEq] at hpres
      obtain ⟨fs, hfs, hpp⟩ := hpres
      subst hpp
      obtain ⟨hhref, hfidx, hsum⟩ := genFiles_eq_some hfs
      refine ⟨by simp [hp], by simp [List.range'], by simp [hp, hhref], ?_⟩
      intro r hr
      rcases List.mem_singleton.mp hr
      refine ⟨by simpa [hhref] using hfidx, ?_, hsum⟩
      rw [hhref]
      exact sortedStrings_sorted files
  obtain ⟨hpt, hpi, hpf, hpm⟩ := hpresChar
  -- characterize the two dict-valued categories
  have hcatChar : ∀ (cat : Option (List (String × List String)))
      (name : String) (startIdx : Nat) (part : List Representation),
      catRepresentations m name cat startIdx = some part →
      part.map Representation.preservation_type =
        specSuffixTypes name (catCount cat) ∧
      part.map Representation.index = List.range' startIdx part.length ∧
      part.map (fun r => r.files.map File.href) = catFileLists cat ∧
      ∀ r ∈ part,
        r.files.map File.index = List.range' 1 r.files.length ∧
        List.Sorted strRel (r.files.map File.href) ∧
        ∀ fl ∈ r.files, fl.checksums =
          m.map (fun a => (a.1.toUpper, (a.2.lookup fl.href).getD "")) := by
    intro cat name startIdx part hcat
    cases hc : cat with
    | none =>
      subst hc
      simp only [catRepresentations, Option.some.injEq] at hcat
      subst hcat
      simp [List.range', specSuffixTypes, catCount, catFileLists]
    | some entries =>
      subst hc
      simp only [catRepresentations] at hcat
      obtain ⟨hlen, hidx, htype, hfiles, hper⟩ := genReps_eq_some hcat
      have hklen : (sortedStrings (entries.map Prod.fst)).length
          = entries.length := by
        rw [sortedStrings_length, List.length_map]
      refine ⟨?_, ?_, ?_, hper⟩
      · rw [htype, hklen]
        rfl
      · rw [hidx, hlen, hklen]
      · rw [hfiles]
        rfl
  obtain ⟨hmt, hmi, hmf, hmmm⟩ :=
    hcatChar pf.modified_master "MODIFIED_MASTER" (presPart.length + 1) mmPart hmm
  obtain ⟨hdt, hdi, hdf, hdm⟩ :=
    hcatChar pf.derivative_copy "DERIVATIVE_COPY"
      (presPart.length + mmPart.length + 1) dcPart hdc
  refine ⟨?_, ?_, ?_, ?_⟩
  · simp only [List.map_append, hpt, hmt, hdt, specTypeOrder]
  · simp only [List.map_append, hpi, hmi, hdi, List.length_append]
    rw [show presPart.length + 1 = 1 + presPart.length by omega]
    rw [range'_append_one 1 presPart.length mmPart.length]
    rw [show presPart.length + mmPart.length + 1
          = 1 + (presPart.length + mmPart.length) by omega]
    rw [range'_append_one 1 (presPart.length + mmPart.length) dcPart.length]
  · simp only [List.map_append, hpf, hmf, hdf, specFileOrder]
  · intro r hr
    rcases List.mem_append.mp hr with hr | hr
    · rcases List.mem_append.mp hr with hr | hr
      · exact hpm r hr
      · exact hmmm r hr
    · exact hdm r hr

/-- If every payload path is present in every manifest algorithm, the
derivation completes (no KeyError). -/
theorem generateRepresentationInfo_isSome (pf : PayloadFiles) (m : Manifests)
    (h : ∀ f ∈ payloadPaths pf, ∀ a ∈ m, (a.2.lookup f).isSome) :
    (generateRepresentationInfo pf m).isSome := by
  have hpres : (presRepresentations pf m).isSome := by
    rw [presRepresentations]
    cases hp : pf.preservation_master with
    | none => simp
    | some files =>
      have : ∀ f ∈ sortedStrings files, ∀ a ∈ m, (a.2.lookup f).isSome := by
        intro f hf a ha
        refine h f ?_ a ha
        have : f ∈ files := (sortedStrings_perm files).mem_iff.mp hf
        simp [payloadPaths, hp, this]
      obtain ⟨fs, hfs⟩ := Option.isSome_iff_exists.mp
        (genFiles_isSome 1 (sortedStrings files) this)
      simp [hfs]
  have hcat : ∀ (cat : Option (List (String × List String)))
      (name : String) (startIdx : Nat),
      (∀ f ∈ ((cat.getD []).map Prod.snd).flatten, ∀ a ∈ m,
        (a.2.lookup f).isSome) →
      (catRepresentations m name cat startIdx).isSome := by
    intro cat name startIdx hf
    cases hc : cat with
    | none => simp [catRepresentations]
    | some entries =>
      subst hc
      rw [catRepresentations]
      exact genReps_isSome startIdx 1 (sortedStrings (entries.map Prod.fst))
        (fun k hk => (sortedStrings_perm (entries.map Prod.fst)).mem_iff.mp hk)
        (by simpa using hf)
  obtain ⟨presPart, hp1⟩ := Option.isSome_iff_exists.mp hpres
  obtain ⟨mmPart, hp2⟩ := Option.isSome_iff_exists.mp
    (hcat pf.modified_master "MODIFIED_MASTER" (presPart.length + 1)
      (fun f hf a ha => h f (by simp [payloadPaths, hf]) a ha))
  obtain ⟨dcPart, hp3⟩ := Option.isSome_iff_exists.mp
    (hcat pf.derivative_copy "DERIVATIVE_COPY"
      (presPart.length + mmPart.length + 1)
      (fun f hf a ha => h f (by simp [payloadPaths, hf]) a ha))
  simp [generateRepresentationInfo, hp1, hp2, hp3]

/-! ## Example inputs for the Representation Deriver claims -/

/-- A payload with all three categories present; the raw lists are
deliberately unsorted. -/
def pfExample : PayloadFiles :=
  { preservation_master :=
      some ["data/preservation_master/b.tiff", "data/preservation_master/a.tiff"],
    modified_master :=
      some [("2", ["data/modified_master/2/x.jpg"]),
            ("1", ["data/modified_master/1/y.jpg"])],
    derivative_copy := some [("1", ["data/derivative_copy/1/z.jpg"])] }

/-- Manifests covering every payload path of pfExample. -/
def mExample : Manifests :=
  [("md5",
    [("data/preservation_master/a.tiff", "da"),
     ("data/preservation_master/b.tiff", "db"),
     ("data/modified_master/2/x.jpg", "dx"),
     ("data/modified_master/1/y.jpg", "dy"),
     ("data/derivative_copy/1/z.jpg", "dz")]),
   ("sha512",
    [("data/preservation_master/a.tiff", "sa"),
     ("data/preservation_master/b.tiff", "sb"),
     ("data/modified_master/2/x.jpg", "sx"),
     ("data/modified_master/1/y.jpg", "sy"),
     ("data/derivative_copy/1/z.jpg", "sz")])]

/-- A payload whose single file is missing from the only manifest. -/
def pfMissing : PayloadFiles :=
  { preservation_master := some ["data/preservation_master/a.tiff"] }

/-- A manifest that does not record pfMissing's file. -/
def mMissing : Manifests :=
  [("md5", [("data/preservation_master/other.tiff", "d0")])]

/-! ## Claim theorems C1 and C2 -/

/-- C1: for every payload_files input on which the derivation
succeeds, the Representation Deriver returns representations in the
fixed order preservation_master, then modified_master sorted by name,
then derivative_copy sorted by name, with unsuffixed first types and
two-digit zero-padded suffixes afterwards, one dense index counter
starting at 1 across the whole list, and within each representation
lexicographically sorted files with dense 1-based indices. -/
theorem claim_C1_representation_ordering (pf : PayloadFiles) (m : Manifests)
    (reps : List Representation)
    (h : generateRepresentationInfo pf m = some reps) :
    reps.map Representation.preservation_type = specTypeOrder pf ∧
    reps.map Representation.index = List.range' 1 reps.length ∧
    reps.map (fun r => r.files.map File.href) = specFileOrder pf ∧
    ∀ r ∈ reps,
      r.files.map File.index = List.range' 1 r.files.length ∧
      List.Sorted strRel (r.files.map File.href) :=
  match generateRepresentationInfo_eq_some h with
  | ⟨h1, h2, h3, h4⟩ => ⟨h1, h2, h3, fun r hr => ⟨(h4 r hr).1, (h4 r hr).2.1⟩⟩

/-- Witness for C1 at a concrete input with all three categories. -/
theorem claim_C1_witness :
    generateRepresentationInfo pfExample mExample =
      some ((generateRepresentationInfo pfExample mExample).getD []) ∧
    (((generateRepresentationInfo pfExample mExample).getD []).map
        Representation.preservation_type = specTypeOrder pfExample ∧
      ((generateRepresentationInfo pfExample mExample).getD []).map
        Representation.index =
        List.range' 1 ((generateRepresentationInfo pfExample mExample).getD []).length ∧
      ((generateRepresentationInfo pfExample mExample).getD []).map
        (fun r => r.files.map File.href) = specFileOrder pfExample ∧
      ∀ r ∈ (generateRepresentationInfo pfExample mExample).getD [],
        r.files.map File.index = List.range' 1 r.files.length ∧
        List.Sorted strRel (r.files.map File.href)) :=
  ⟨rfl, claim_C1_representation_ordering pfExample mExample _ rfl⟩

/-- C2 counterexample: a payload path absent from one manifest
algorithm does not simply contribute no checksum entry; the lookup
raises KeyError, so the whole derivation aborts (modelled as none). -/
theorem claim_C2_counterexample :
    generateRepresentationInfo pfMissing mMissing = none := rfl

/-- C2 as amended: the checksum set of every file is computed by
looking its path up in each manifest algorithm (upper-cased algorithm
name as key), but a path absent from some algorithm's manifest makes
the derivation raise KeyError; only when every payload path is present
in every algorithm's manifest does the derivation complete, and then
every file carries one checksum entry per algorithm. -/
theorem claim_C2_checksum_lookup (pf : PayloadFiles) (m : Manifests)
    (h : ∀ f ∈ payloadPaths pf, ∀ a ∈ m, (a.2.lookup f).isSome) :
    ∃ reps, generateRepresentationInfo pf m = some reps ∧
      ∀ r ∈ reps, ∀ fl ∈ r.files, fl.checksums =
        m.map (fun a => (a.1.toUpper, (a.2.lookup fl.href).getD "")) := by
  obtain ⟨reps, hreps⟩ := Option.isSome_iff_exists.mp
    (generateRepresentationInfo_isSome pf m h)
  obtain ⟨-, -, -, hper⟩ := generateRepresentationInfo_eq_some hreps
  exact ⟨reps, hreps, fun r hr => (hper r hr).2.2⟩

/-- Witness for the amended C2 at a concrete input with two manifest
algorithms covering all paths. -/
theorem claim_C2_witness :
    (∀ f ∈ payloadPaths pfExample, ∀ a ∈ mExample, (a.2.lookup f).isSome) ∧
    ∃ reps, generateRepresentationInfo pfExample mExample = some reps ∧
      ∀ r ∈ reps, ∀ fl ∈ r.files, fl.checksums =
        mExample.map (fun a => (a.1.toUpper, (a.2.lookup fl.href).getD "")) :=
  ⟨by decide, claim_C2_checksum_lookup pfExample mExample (by decide)⟩

/-! ## Dublin-Core Compiler (model of compiler.DCCompiler) -/

namespace DCCompiler

def BAG_INFO_DC_MAP : List (String × String) :=
  [("DC-Title", XMLNS.dc ++ "title"),
   ("DC-Terms-Identifier", XMLNS.dcterms ++ "identifier"),
   ("Origin-System-Identifier", XMLNS.rosetta ++ "externalSystem"),
   ("External-Identifier", XMLNS.rosetta ++ "externalId")]

/-- Model of DCCompiler._compile: iterate the fixed table, list-ify the
present values and emit one child per item; a missing baginfo logs one
ERROR and yields an empty record. -/
def compile (baginfo : Option Baginfo) : Xml × List LogEntry :=
  match baginfo with
  | none =>
      (Xml.elem (XMLNS.dc ++ "record") [] none [],
       [⟨LogCtx.error, "Missing \x27bag-info.txt\x27 metadata in target."⟩])
  | some bag =>
      (Xml.elem (XMLNS.dc ++ "record") [] none
        (BAG_INFO_DC_MAP.flatMap (fun kv =>
          match bag.lookup kv.1 with
          | none => []
          | some v => (listify v).map (fun item => Xml.elem kv.2 [] (some item) []))),
       [])

end DCCompiler

/-! ## Archival-METS Compiler (model of compiler.IECompiler) -/

namespace IECompiler

def BAG_INFO_DC_MAP : List (String × String) :=
  [("DC-Terms-Identifier", XMLNS.dcterms ++ "identifier"),
   ("DC-Creator", XMLNS.dc ++ "creator"),
   ("DC-Title", XMLNS.dc ++ "title"),
   ("DC-Rights", XMLNS.dc ++ "rights"),
   ("DC-Terms-Rights", XMLNS.dcterms ++ "rights"),
   ("DC-Terms-License", XMLNS.dcterms ++ "license"),
   ("DC-Terms-Access-Rights", XMLNS.dcterms ++ "accessRights"),
   ("Embargo-Enddate", XMLNS.dcterms ++ "available"),
   ("DC-Terms-Rights-Holder", XMLNS.dcterms ++ "rightsHolder")]

def DMD_DC_RECORD_ORDER : List String :=
  [XMLNS.dcterms ++ "identifier", XMLNS.dc ++ "creator", XMLNS.dc ++ "title",
   XMLNS.dc ++ "rights", XMLNS.dcterms ++ "rights",
   XMLNS.dcterms ++ "license", XMLNS.dcterms ++ "accessRights",
   XMLNS.dcterms ++ "available", XMLNS.dcterms ++ "rightsHolder"]

/-- Simplified model of Python repr() of a string (the quoting that
str.format applies indirectly never matters for the claims; escaping
inside the value is out of scope). -/
def pyReprStr (s : String) : String := "\x27" ++ s ++ "\x27"

/-- How str.format renders a bag-info value: a string as itself, a
list via its repr. -/
def bagValFormat : BagVal → String
  | .str s => s
  | .list l => "[" ++ String.intercalate ", " (l.map pyReprStr) ++ "]"

/-- Model of IECompiler._get_dcm_dcterms_identifier; the keyword
arguments of str.format are evaluated left to right, so the first
missing key raises KeyError (modelled as the error value). -/
def getDcmDctermsIdentifier (bag : Baginfo) : Except String String :=
  match bag.lookup "Source-Organization" with
  | none => .error "Source-Organization"
  | some so =>
      match bag.lookup "Origin-System-Identifier" with
      | none => .error "Origin-System-Identifier"
      | some os =>
          match bag.lookup "External-Identifier" with
          | none => .error "External-Identifier"
          | some ei =>
              .ok ("dcm:" ++ bagValFormat so ++ "@" ++ bagValFormat os
                ++ "@" ++ bagValFormat ei)

/-- Model of IECompiler._get_mdwrap_base. -/
def getMdwrapBase (child : Option Xml) (attrs : List (String × String)) : Xml :=
  Xml.elem (XMLNS.mets ++ "mdWrap") attrs none
    [Xml.elem (XMLNS.mets ++ "xmlData") [] none
      (match child with | none => [] | some c => [c])]

/-- The (tag, text) pairs recorded while iterating BAG_INFO_DC_MAP in
compile_dmdsec (the list _from_baginfo). -/
def fromBaginfoPairs (bag : Baginfo) : List (String × String) :=
  BAG_INFO_DC_MAP.flatMap (fun kv =>
    match bag.lookup kv.1 with
    | none => []
    | some v => (listify v).map (fun item => (kv.2, item)))

/-- The elements appended from baginfo, in the same iteration. -/
def baginfoElems (bag : Baginfo) : List Xml :=
  (fromBaginfoPairs bag).map (fun p => Xml.elem p.1 [] (some p.2) [])

/-- The sort key of compile_dmdsec: (position in DMD_DC_RECORD_ORDER
or its length as sentinel, tag, text or empty string); represented on
character lists, which compare exactly like the Python strings. -/
def dmdKeyOf (x : Xml) : Nat × List Char × List Char :=
  (if DMD_DC_RECORD_ORDER.contains x.tag
   then DMD_DC_RECORD_ORDER.indexOf x.tag
   else DMD_DC_RECORD_ORDER.length,
   x.tag.data, (x.text.getD "").data)

/-- Lexicographic comparison of sort keys (Python tuple comparison). -/
def keyLe : Nat × List Char × List Char → Nat × List Char × List Char → Bool
  | (n1, t1, x1), (n2, t2, x2) =>
      if n1 = n2 then
        (if t1 = t2 then listLe x1 x2 else listLe t1 t2)
      else decide (n1 < n2)

def dmdRel (a b : Xml) : Prop := keyLe (dmdKeyOf a) (dmdKeyOf b) = true

instance : DecidableRel dmdRel := fun a b => by
  unfold dmdRel
  infer_instance

/-- The true/false outcome of the duplicate check
(dc_element.tag, dc_element.text) in _from_baginfo. -/
def isDuplicate (pairs : List (String × String)) (e : Xml) : Bool :=
  match e.text with
  | some t => pairs.contains (e.tag, t)
  | none => false

/-- The dc.xml children appended to the record: every child except
exact (tag, text) duplicates of baginfo-derived entries. -/
def dmdKept (bag : Baginfo) (dcXml : Option (List Xml)) : List Xml :=
  match dcXml with
  | none => []
  | some children => children.filter (fun e => !(isDuplicate (fromBaginfoPairs bag) e))

/-- The children that stay behind in the dc.xml document: lxml append
moves an element to the new tree, so exactly the skipped duplicates
remain. -/
def dmdRemaining (bag : Baginfo) (dcXml : Option (List Xml)) : Option (List Xml) :=
  match dcXml with
  | none => none
  | some children => some (children.filter (fun e => isDuplicate (fromBaginfoPairs bag) e))

/-- All children accumulated in the record before sorting: composite
identifier, baginfo table entries, then the kept dc.xml children. -/
def dmdAccum (dcmId : String) (bag : Baginfo) (dcXml : Option (List Xml)) : List Xml :=
  Xml.elem (XMLNS.dcterms ++ "identifier") [] (some dcmId) [] ::
    baginfoElems bag ++ dmdKept bag dcXml

/-- The record children after the final sort (Python sorted is stable;
insertionSort is the stable sort, so they agree). -/
def dmdRecordChildren (dcmId : String) (bag : Baginfo) (dcXml : Option (List Xml)) :
    List Xml :=
  (dmdAccum dcmId bag dcXml).insertionSort dmdRel

/-- Model of IECompiler.compile_dmdsec.  Returns the dmdSec element,
the post-call children of the dc.xml document (the call moves the
non-duplicate children out of it) and the log entries of the call. -/
def compile_dmdsec (bag : Baginfo) (dcXml : Option (List Xml)) :
    Xml × Option (List Xml) × List LogEntry :=
  match getDcmDctermsIdentifier bag with
  | .error k =>
      (Xml.elem (XMLNS.mets ++ "dmdSec") [("ID", "ie-dmd")] none [],
       dcXml,
       [⟨LogCtx.error,
         "Missing required metadata in \x27bag-info.txt\x27: " ++ pyReprStr k ++ "."⟩])
  | .ok dcmId =>
      (Xml.elem (XMLNS.mets ++ "dmdSec") [("ID", "ie-dmd")] none
        [getMdwrapBase
          (some (Xml.elem (XMLNS.dc ++ "record") [] none
            (dmdRecordChildren dcmId bag dcXml)))
          [("MDTYPE", "DC")]],
       dmdRemaining bag dcXml,
       [])

/-- Model of IECompiler.compile_ie_amdsec_techmd.  Assigning a list
value to the preservationLevelType text raises TypeError in lxml,
modelled as none. -/
def compile_ie_amdsec_techmd (bag : Baginfo)
    (sig : Option (List (Option String × Option String))) : Option Xml :=
  match bag.lookup "Preservation-Level" with
  | some (.list _) => none
  | other =>
      some (Xml.elem (XMLNS.mets ++ "techMD") [("ID", "ie-amd-tech")] none
        [getMdwrapBase
          (some (Xml.elem "dnx" [] none
            ((match other with
              | some (.str s) =>
                  [Xml.elem "section" [("id", "preservationLevel")] none
                    [Xml.elem "record" [] none
                      [Xml.elem "key" [("id", "preservationLevelType")] (some s) []]]]
              | _ => []) ++
             (match sig with
              | none => []
              | some props =>
                  [Xml.elem "section" [("id", "significantProperties")] none
                    (props.map (fun p => Xml.elem "record" [] none
                      [Xml.elem "key" [("id", "significantPropertiesType")] p.1 [],
                       Xml.elem "key" [("id", "significantPropertiesValue")] p.2 []]))]))))
          [("MDTYPE", "OTHER"), ("OTHERMDTYPE", "dnx")]])

/-- Model of IECompiler.compile_ie_amdsec_rightsmd (static). -/
def compile_ie_amdsec_rightsmd : Xml :=
  Xml.elem (XMLNS.mets ++ "rightsMD") [("ID", "ie-amd-rights")] none
    [getMdwrapBase
      (some (Xml.elem "dnx" [] none
        [Xml.elem "section" [("id", "accessRightsPolicy")] none []]))
      [("MDTYPE", "OTHER"), ("OTHERMDTYPE", "dnx")]]

/-- Model of IECompiler.compile_ie_amdsec_sourcemd. -/
def compile_ie_amdsec_sourcemd (src : Option Xml) : Xml :=
  Xml.elem (XMLNS.mets ++ "sourceMD") [("ID", "ie-amd-source-OTHER")] none
    [getMdwrapBase src [("MDTYPE", "OTHER"), ("OTHERMDTYPE", "Text")]]

/-- Model of IECompiler.compile_ie_amdsec_digiprovmd (static). -/
def compile_ie_amdsec_digiprovmd : Xml :=
  Xml.elem (XMLNS.mets ++ "digiprovMD") [("ID", "ie-amd-digiprov")] none
    [getMdwrapBase (some (Xml.elem "dnx" [] none []))
      [("MDTYPE", "OTHER"), ("OTHERMDTYPE", "dnx")]]

/-- Model of IECompiler.compile_ie_amdsec. -/
def compile_ie_amdsec (bag : Baginfo) (src : Option Xml)
    (sig : Option (List (Option String × Option String))) : Option Xml :=
  (compile_ie_amdsec_techmd bag sig).map (fun techmd =>
    Xml.elem (XMLNS.mets ++ "amdSec") [("ID", "ie-amd")] none
      ([techmd, compile_ie_amdsec_rightsmd] ++
       (match src with
        | none => []
        | some s => [compile_ie_amdsec_sourcemd (some s)]) ++
       [compile_ie_amdsec_digiprovmd]))

/-! ### Identifier templates used by the technical sections and the
file inventory -/

def mkRepId (n : Nat) : String := "rep" ++ pyNat n

def mkRepAmdId (n : Nat) : String := "rep" ++ pyNat n ++ "-amd"

def mkFidId (n k : Nat) : String := "fid" ++ pyNat n ++ "-" ++ pyNat k

def mkFidAmdId (n k : Nat) : String :=
  "fid" ++ pyNat n ++ "-" ++ pyNat k ++ "-amd"

/-- Model of IECompiler.compile_rep_amdsecs. -/
def compile_rep_amdsecs (reps : List Representation) : List Xml :=
  reps.map (fun r =>
    Xml.elem (XMLNS.mets ++ "amdSec") [("ID", mkRepAmdId r.index)] none
      [Xml.elem (XMLNS.mets ++ "techMD")
        [("ID", mkRepAmdId r.index ++ "-tech")] none
        [getMdwrapBase
          (some (Xml.elem "dnx" [] none
            [Xml.elem "section" [("id", "generalRepCharacteristics")] none
              [Xml.elem "record" [] none
                [Xml.elem "key" [("id", "preservationType")]
                  (some r.preservation_type) [],
                 Xml.elem "key" [("id", "usageType")] (some r.usage_type) []]]]))
          [("MDTYPE", "OTHER"), ("OTHERMDTYPE", "dnx")]]])

/-- Model of IECompiler.compile_file_amdsecs. -/
def compile_file_amdsecs (reps : List Representation) : List Xml :=
  reps.flatMap (fun r => r.files.map (fun f =>
    Xml.elem (XMLNS.mets ++ "amdSec") [("ID", mkFidAmdId r.index f.index)] none
      [Xml.elem (XMLNS.mets ++ "techMD")
        [("ID", mkFidAmdId r.index f.index ++ "-tech")] none
        [getMdwrapBase
          (some (Xml.elem "dnx" [] none
            [Xml.elem "section" [("id", "fileFixity")] none
              (f.checksums.map (fun c => Xml.elem "record" [] none
                [Xml.elem "key" [("id", "fixityType")] (some c.1) [],
                 Xml.elem "key" [("id", "fixityValue")] (some c.2) []]))]))
          [("MDTYPE", "OTHER"), ("OTHERMDTYPE", "dnx")]]]))

/-- Model of str(Path(href).relative_to(Path(href).parts[0])): the
first path segment is stripped. -/
def stripRootSegment (href : String) : String :=
  match (href.splitOn "/").tail with
  | [] => "."
  | rest => String.intercalate "/" rest

/-- Model of IECompiler.compile_filesec.  The source creates each
fileGrp as a SubElement of fileSec and appends it once more at the end
of the loop body; in lxml the second append moves the element to the
end of a list it already terminates, a no-op, so each group appears
once, in representation order. -/
def compile_filesec (reps : List Representation) : Xml :=
  Xml.elem (XMLNS.mets ++ "fileSec") [] none
    (reps.map (fun r =>
      Xml.elem (XMLNS.mets ++ "fileGrp")
        [("USE", r.usage_type), ("ID", mkRepId r.index),
         ("ADMID", mkRepAmdId r.index)] none
        (r.files.map (fun f =>
          Xml.elem (XMLNS.mets ++ "file")
            [("ID", mkFidId r.index f.index),
             ("ADMID", mkFidAmdId r.index f.index)] none
            [Xml.elem (XMLNS.mets ++ "FLocat")
              [("LOCTYPE", f.loctype),
               (XMLNS.xlink ++ "href", stripRootSegment f.href)] none []]))))

end IECompiler

/-! ## The Input Model and the top-level compile calls -/

/-- Model of the IP attribute set consumed by the compilers.  dc_xml
is represented by the child list of its root element (the only part
compile_dmdsec reads and mutates). -/
structure IP where
  baginfo : Option Baginfo := none
  manifests : Option Manifests := none
  payload_files : PayloadFiles := {}
  dc_xml : Option (List Xml) := none
  source_metadata : Option Xml := none
  significant_properties : Option (List (Option String × Option String)) := none

/-- Model of DCCompiler._compile on an IP (reads only baginfo). -/
def dcCompile (ip : IP) : Xml × List LogEntry :=
  DCCompiler.compile ip.baginfo

/-- Model of IECompiler._compile.  Returns the document, the IP as it
is left after the call (compile_dmdsec moves dc.xml children), and the
log; none models an uncaught exception (KeyError from the manifest
lookup or TypeError from a list-valued Preservation-Level). -/
def ieCompile (ip : IP) : Option (Xml × IP × List LogEntry) :=
  match ip.baginfo with
  | none =>
      some (Xml.elem (XMLNS.mets ++ "mets") [] none [],
            ip,
            [⟨LogCtx.error, "Missing \x27bag-info.txt\x27 metadata in target."⟩])
  | some bag =>
      let dmd := IECompiler.compile_dmdsec bag ip.dc_xml
      do
        let ieamd ← IECompiler.compile_ie_amdsec bag ip.source_metadata
          ip.significant_properties
        let reps ← generateRepresentationInfo ip.payload_files
          (ip.manifests.getD [])
        some (Xml.elem (XMLNS.mets ++ "mets") [] none
                ([dmd.1, ieamd] ++ IECompiler.compile_rep_amdsecs reps ++
                 IECompiler.compile_file_amdsecs reps ++
                 [IECompiler.compile_filesec reps]),
              { ip with dc_xml := dmd.2.1 },
              dmd.2.2)

/-! ## Claim theorems C8 and C6 -/

/-- C8: with an absent baginfo the Dublin-Core Compiler logs exactly
one ERROR and returns a record with zero children, and the
archival-METS Compiler logs exactly one ERROR and returns an
otherwise-empty schema-namespaced root; neither raises (the IE result
is some, not none). -/
theorem claim_C8_missing_baginfo (ip : IP) (h : ip.baginfo = none) :
    dcCompile ip =
      (Xml.elem (XMLNS.dc ++ "record") [] none [],
       [⟨LogCtx.error, "Missing \x27bag-info.txt\x27 metadata in target."⟩]) ∧
    ieCompile ip =
      some (Xml.elem (XMLNS.mets ++ "mets") [] none [],
            ip,
            [⟨LogCtx.error, "Missing \x27bag-info.txt\x27 metadata in target."⟩]) := by
  constructor
  · simp [dcCompile, DCCompiler.compile, h]
  · simp [ieCompile, h]

/-- Witness for C8 at the empty input model. -/
theorem claim_C8_witness :
    dcCompile {} =
      (Xml.elem (XMLNS.dc ++ "record") [] none [],
       [⟨LogCtx.error, "Missing \x27bag-info.txt\x27 metadata in target."⟩]) ∧
    ieCompile {} =
      some (Xml.elem (XMLNS.mets ++ "mets") [] none [],
            {},
            [⟨LogCtx.error, "Missing \x27bag-info.txt\x27 metadata in target."⟩]) :=
  claim_C8_missing_baginfo {} rfl

/-- C6: if any of the three composite-identifier keys is missing from
baginfo, compile_dmdsec logs exactly one ERROR naming the (first)
missing key and returns a dmdSec element with zero children, without
raising. -/
theorem claim_C6_missing_identifier_key (bag : Baginfo) (dcXml : Option (List Xml))
    (h : (bag.lookup "Source-Organization").isNone ∨
         (bag.lookup "Origin-System-Identifier").isNone ∨
         (bag.lookup "External-Identifier").isNone) :
    ∃ k, (k = "Source-Organization" ∨ k = "Origin-System-Identifier" ∨
          k = "External-Identifier") ∧
      (bag.lookup k).isNone ∧
      (IECompiler.compile_dmdsec bag dcXml).2.2 =
        [⟨LogCtx.error,
          "Missing required metadata in \x27bag-info.txt\x27: "
            ++ IECompiler.pyReprStr k ++ "."⟩] ∧
      (IECompiler.compile_dmdsec bag dcXml).1.children = [] := by
  cases hso : bag.lookup "Source-Organization" with
  | none =>
      refine ⟨"Source-Organization", Or.inl rfl, by simp [hso], ?_, ?_⟩ <;>
        simp [IECompiler.compile_dmdsec, IECompiler.getDcmDctermsIdentifier,
          hso, Xml.children]
  | some so =>
      cases hos : bag.lookup "Origin-System-Identifier" with
      | none =>
          refine ⟨"Origin-System-Identifier", Or.inr (Or.inl rfl),
            by simp [hos], ?_, ?_⟩ <;>
            simp [IECompiler.compile_dmdsec, IECompiler.getDcmDctermsIdentifier,
              hso, hos, Xml.children]
      | some os =>
          cases hei : bag.lookup "External-Identifier" with
          | none =>
              refine ⟨"External-Identifier", Or.inr (Or.inr rfl),
                by simp [hei], ?_, ?_⟩ <;>
                simp [IECompiler.compile_dmdsec,
                  IECompiler.getDcmDctermsIdentifier, hso, hos, hei, Xml.children]
          | some ei =>
              exfalso
              rcases h with h | h | h
              · simp [hso] at h
              · simp [hos] at h
              · simp [hei] at h

/-- Witness for C6: a baginfo carrying only Source-Organization and
Origin-System-Identifier. -/
theorem claim_C6_witness :
    ((([("Source-Organization", BagVal.str "s"),
        ("Origin-System-Identifier", BagVal.str "o")] : Baginfo).lookup
          "Source-Organization").isNone ∨
     (([("Source-Organization", BagVal.str "s"),
        ("Origin-System-Identifier", BagVal.str "o")] : Baginfo).lookup
          "Origin-System-Identifier").isNone ∨
     (([("Source-Organization", BagVal.str "s"),
        ("Origin-System-Identifier", BagVal.str "o")] : Baginfo).lookup
          "External-Identifier").isNone) ∧
    ∃ k, (k = "Source-Organization" ∨ k = "Origin-System-Identifier" ∨
          k = "External-Identifier") ∧
      (([("Source-Organization", BagVal.str "s"),
         ("Origin-System-Identifier", BagVal.str "o")] : Baginfo).lookup k).isNone ∧
      (IECompiler.compile_dmdsec
        [("Source-Organization", BagVal.str "s"),
         ("Origin-System-Identifier", BagVal.str "o")] none).2.2 =
        [⟨LogCtx.error,
          "Missing required metadata in \x27bag-info.txt\x27: "
            ++ IECompiler.pyReprStr k ++ "."⟩] ∧
      (IECompiler.compile_dmdsec
        [("Source-Organization", BagVal.str "s"),
         ("Origin-System-Identifier", BagVal.str "o")] none).1.children = [] :=
  ⟨by decide,
   claim_C6_missing_identifier_key
     [("Source-Organization", BagVal.str "s"),
      ("Origin-System-Identifier", BagVal.str "o")] none (by decide)⟩

/-! ## XML Schema Validator (model of validator.XMLValidator)

The xmlschema library is abstracted behaviourally: a loaded schema is
a function from an input document to either a parse failure (the
underlying parser raises ParseError) or the list of formatted schema
violations that iter_errors would report; the three schema classes
are abstracted as loaders that either return such a function or
raise. -/

inductive ParseResult where
  | malformed (msg : String)
  | wellFormed (violations : List String)
deriving DecidableEq, Repr

abbrev SchemaFn := String → ParseResult

/-- The constructors xmlschema.XMLSchema / XMLSchema10 / XMLSchema11,
abstracted: each either returns a schema object or raises (with the
given message). -/
structure SchemaLib where
  loadDefault : String → Except String SchemaFn
  load10 : String → Except String SchemaFn
  load11 : String → Except String SchemaFn

/-- Model of XMLValidator._flatten_multiline. -/
def flattenMultiline (s : String) : String :=
  String.join ((s.splitOn "\n").map String.trim)

/-- Model of XMLValidator._generate_name (truncation to 50 characters
with a two-dot ellipsis marker when not shorter than 50). -/
def generateName (base : String) : String :=
  let b := flattenMultiline base
  b.take 50 ++ (if b.length < 50 then "" else "..")

/-- Model of XMLValidator._load_xml_schema: any exception is caught
and returned next to a none schema. -/
def loadXmlSchema (loader : String → Except String SchemaFn) (schema : String) :
    Option SchemaFn × Option String :=
  match loader schema with
  | .ok s => (some s, none)
  | .error e => (none, some e)

structure ValidatorState where
  schema : Option SchemaFn
  log : List LogEntry
  name : String

def loadFailureBody (schemaName : String) (exc : String) : String :=
  "Unable to load schema \x27" ++ schemaName ++ "\x27 (" ++ exc ++ ")."

/-- The state built from a _load_xml_schema result. -/
def mkValidatorState (p : Option SchemaFn × Option String)
    (schema : String) (schemaName : Option String) : ValidatorState :=
  { schema := p.1,
    log :=
      match p.2 with
      | none => []
      | some e => [⟨LogCtx.error, loadFailureBody (schemaName.getD schema) e⟩],
    name := schemaName.getD (generateName schema) }

/-- Model of XMLValidator.__init__ of this repository: an unknown
version raises ValueError; a schema that fails to load does not raise
but leaves schema = None and one ERROR entry in the log. -/
def xmlValidatorInit (lib : SchemaLib) (schema : String)
    (version : Option String) (schemaName : Option String) :
    Except String ValidatorState :=
  match version with
  | none => .ok (mkValidatorState (loadXmlSchema lib.loadDefault schema) schema schemaName)
  | some v =>
      if v = "1.0" then
        .ok (mkValidatorState (loadXmlSchema lib.load10 schema) schema schemaName)
      else if v = "1.1" then
        .ok (mkValidatorState (loadXmlSchema lib.load11 schema) schema schemaName)
      else
        .error ("Unknown XML schema version \x27" ++ v ++ "\x27.")

/-- Model of XMLValidator.is_valid: the schema attribute is accessed
without a None guard (none models the AttributeError that access on a
missing schema raises); a ParseError from the library yields false. -/
def stateIsValid (st : ValidatorState) (xml : String) : Option Bool :=
  st.schema.map (fun sch =>
    match sch xml with
    | .malformed _ => false
    | .wellFormed vs => vs.isEmpty)

/-- The entries validate produces before the trailing summary: one
ERROR per violation, or exactly one ERROR when parsing fails. -/
def validateEntries (sch : SchemaFn) (xml : String) : List LogEntry :=
  match sch xml with
  | .malformed msg =>
      [⟨LogCtx.error, "Malformed XML, unable to continue (" ++ msg ++ ")."⟩]
  | .wellFormed vs => vs.map (fun v => ⟨LogCtx.error, v⟩)

def validationInfoBody (xmlName schemaName result : String) : String :=
  "Validation of \x27" ++ xmlName ++ "\x27 with schema \x27" ++ schemaName
    ++ "\x27 returns " ++ result ++ "."

/-- Model of XMLValidator.validate: violation or parse-failure ERROR
entries followed by a single INFO summary whose result is INVALID
exactly when the fresh log already holds an ERROR; like is_valid, the
schema attribute is accessed without a None guard. -/
def stateValidate (st : ValidatorState) (xml : String) (xmlName : Option String) :
    Option (List LogEntry) :=
  st.schema.map (fun sch =>
    validateEntries sch xml ++
      [⟨LogCtx.info,
        validationInfoBody (xmlName.getD (generateName xml)) st.name
          (if hasErrorEntry (validateEntries sch xml) then "INVALID" else "VALID")⟩])

/-! ## Claim theorems C9 and C10 -/

/-- C9: on input that is not well-formed, is_valid returns false
rather than raising, and validate yields exactly one ERROR (the parse
failure) and no violation entries; on every input a single trailing
INFO entry reports INVALID exactly when the call produced at least one
ERROR entry. -/
theorem claim_C9_malformed_and_summary (sch : SchemaFn) (nm : String)
    (log0 : List LogEntry) (xml : String) (xnm : Option String) :
    (∀ msg, sch xml = ParseResult.malformed msg →
      stateIsValid ⟨some sch, log0, nm⟩ xml = some false ∧
      stateValidate ⟨some sch, log0, nm⟩ xml xnm =
        some [⟨LogCtx.error, "Malformed XML, unable to continue (" ++ msg ++ ")."⟩,
              ⟨LogCtx.info,
                validationInfoBody (xnm.getD (generateName xml)) nm "INVALID"⟩]) ∧
    stateValidate ⟨some sch, log0, nm⟩ xml xnm =
      some (validateEntries sch xml ++
        [⟨LogCtx.info,
          validationInfoBody (xnm.getD (generateName xml)) nm
            (if hasErrorEntry (validateEntries sch xml) then "INVALID" else "VALID")⟩]) := by
  constructor
  · intro msg hm
    constructor
    · simp [stateIsValid, hm]
    · simp [stateValidate, validateEntries, hm, hasErrorEntry]
  · rfl

/-- Witness for C9 with a concrete schema function that reports a
parse failure on the empty document. -/
theorem claim_C9_witness :
    ((∀ msg,
        (fun d => if d = "" then ParseResult.malformed "err"
                  else ParseResult.wellFormed [] : SchemaFn) "" =
          ParseResult.malformed msg →
        stateIsValid ⟨some (fun d => if d = "" then ParseResult.malformed "err"
            else ParseResult.wellFormed []), [], "s"⟩ "" = some false ∧
        stateValidate ⟨some (fun d => if d = "" then ParseResult.malformed "err"
            else ParseResult.wellFormed []), [], "s"⟩ "" none =
          some [⟨LogCtx.error, "Malformed XML, unable to continue (" ++ msg ++ ")."⟩,
                ⟨LogCtx.info, validationInfoBody (generateName "") "s" "INVALID"⟩]) ∧
      stateValidate ⟨some (fun d => if d = "" then ParseResult.malformed "err"
          else ParseResult.wellFormed []), [], "s"⟩ "" none =
        some (validateEntries (fun d => if d = "" then ParseResult.malformed "err"
            else ParseResult.wellFormed []) "" ++
          [⟨LogCtx.info,
            validationInfoBody (generateName "") "s"
              (if hasErrorEntry (validateEntries
                  (fun d => if d = "" then ParseResult.malformed "err"
                    else ParseResult.wellFormed []) "")
               then "INVALID" else "VALID")⟩])) :=
  claim_C9_malformed_and_summary
    (fun d => if d = "" then ParseResult.malformed "err" else ParseResult.wellFormed [])
    "s" [] "" none

/-- C10: for the recognized versions (absent, 1.0, 1.1) construction
always returns an instance without raising; when the schema loader
fails, the instance has schema = none, its log holds exactly one
ERROR about the load failure, and is_valid/validate on it are
unguarded (they hit the missing schema, modelled as none). -/
theorem claim_C10_construction_never_raises (lib : SchemaLib) (src : String)
    (ver : Option String) (nm : Option String)
    (hver : ver = none ∨ ver = some "1.0" ∨ ver = some "1.1") :
    ∃ st, xmlValidatorInit lib src ver nm = .ok st ∧
      ∀ e, (match ver with
            | none => lib.loadDefault
            | some v => if v = "1.0" then lib.load10
                        else if v = "1.1" then lib.load11
                        else lib.loadDefault) src = .error e →
        st.schema = none ∧
        st.log = [⟨LogCtx.error, loadFailureBody (nm.getD src) e⟩] ∧
        (∀ xml, stateIsValid st xml = none) ∧
        (∀ xml xnm, stateValidate st xml xnm = none) := by
  rcases hver with hver | hver | hver <;> subst hver
  · refine ⟨_, rfl, ?_⟩
    intro e he
    simp only [xmlValidatorInit] at *
    simp [mkValidatorState, loadXmlSchema, he, stateIsValid, stateValidate]
  · refine ⟨mkValidatorState (loadXmlSchema lib.load10 src) src nm,
      by simp [xmlValidatorInit], ?_⟩
    intro e he
    simp at he
    simp [mkValidatorState, loadXmlSchema, he, stateIsValid, stateValidate]
  · refine ⟨mkValidatorState (loadXmlSchema lib.load11 src) src nm,
      by simp [xmlValidatorInit], ?_⟩
    intro e he
    simp at he
    simp [mkValidatorState, loadXmlSchema, he, stateIsValid, stateValidate]

/-- Witness for C10 with a library whose loaders always fail. -/
theorem claim_C10_witness :
    ((some "1.0" : Option String) = none ∨ (some "1.0" : Option String) = some "1.0" ∨
      (some "1.0" : Option String) = some "1.1") ∧
    ∃ st, xmlValidatorInit
        ⟨fun _ => .error "boom", fun _ => .error "boom", fun _ => .error "boom"⟩
        "bad.xsd" (some "1.0") none = .ok st ∧
      ∀ e, (match (some "1.0" : Option String) with
            | none => (⟨fun _ => .error "boom", fun _ => .error "boom",
                fun _ => .error "boom"⟩ : SchemaLib).loadDefault
            | some v => if v = "1.0" then
                  (⟨fun _ => .error "boom", fun _ => .error "boom",
                    fun _ => .error "boom"⟩ : SchemaLib).load10
                else if v = "1.1" then
                  (⟨fun _ => .error "boom", fun _ => .error "boom",
                    fun _ => .error "boom"⟩ : SchemaLib).load11
                else (⟨fun _ => .error "boom", fun _ => .error "boom",
                    fun _ => .error "boom"⟩ : SchemaLib).loadDefault) "bad.xsd" =
          .error e →
        st.schema = none ∧
        st.log = [⟨LogCtx.error, loadFailureBody "bad.xsd" e⟩] ∧
        (∀ xml, stateIsValid st xml = none) ∧
        (∀ xml xnm, stateValidate st xml xnm = none) :=
  ⟨Or.inr (Or.inl rfl),
   claim_C10_construction_never_raises
     ⟨fun _ => .error "boom", fun _ => .error "boom", fun _ => .error "boom"⟩
     "bad.xsd" (some "1.0") none (Or.inr (Or.inl rfl))⟩

/-! ## Fallback protocol of the build view (views/build.py)

The build view imports its Schema Validator from dcm_common.xml, a
collaborator whose code is not part of this repository; only its
caller, make_validator, is.  That validator is modelled from the
specification below; make_validator and the constructor guard of
BuildView.__init__ are embedded from views/build.py. -/

def listHasPre : List Char → List Char → Bool
  | [], _ => true
  | _ :: _, [] => false
  | a :: as, b :: bs => decide (a = b) && listHasPre as bs

def listHasSub (pat : List Char) : List Char → Bool
  | [] => listHasPre pat []
  | c :: rest => listHasPre pat (c :: rest) || listHasSub pat rest

/-- Model of the Python substring test (pat in s). -/
def strContainsSub (s pat : String) : Bool := listHasSub pat.data s.data

/-- The fixed recognizable marker carried by a schema-load failure. -/
def loadMarker : String := "Unable to load schema"

/-- The validator object make_validator constructs; only its
construction parameters are observable here. -/
structure SpecValidator where
  source : String
  version : Option String
  schemaName : Option String
deriving DecidableEq, Repr

/-- Modelled from the spec: construction of the dcm_common.xml
Schema Validator used by views/build.py (absent from src/).
Construction attempts to load the schema; an unrecognized version
raises a configuration error without the marker, and a load failure
raises a distinguishable error whose message carries the fixed marker
"Unable to load schema". -/
def specValidatorInit (lib : SchemaLib) (schema : String)
    (version : Option String) (schemaName : Option String) :
    Except String SpecValidator :=
  match version with
  | some v =>
      if v = "1.0" ∨ v = "1.1" then
        match (if v = "1.0" then lib.load10 else lib.load11) schema with
        | .ok _ => .ok ⟨schema, version, schemaName⟩
        | .error e =>
            .error (loadMarker ++ " \x27" ++ schemaName.getD schema
              ++ "\x27 (" ++ e ++ ").")
      else .error ("Unknown XML schema version \x27" ++ v ++ "\x27.")
  | none =>
      match lib.loadDefault schema with
      | .ok _ => .ok ⟨schema, version, schemaName⟩
      | .error e =>
          .error (loadMarker ++ " \x27" ++ schemaName.getD schema
            ++ "\x27 (" ++ e ++ ").")

/-- The validator-related configuration surface of the build view. -/
structure ValidationConfig where
  active : Bool := true
  xsd : String
  version : Option String := none
  schemaName : Option String := none
  fallbackXsd : Option String := none
  fallbackVersion : Option String := none
  fallbackName : Option String := none

/-- Model of BuildView.make_validator: try the primary source; on a
ValueError carrying the marker with a configured fallback, print a
warning and try the fallback; otherwise, and when the fallback also
fails, return none together with the primary error message.  The
returned triple is (validator, message, warnings printed to stderr);
on fallback success the message is the warning text, as in the
source. -/
def makeValidator (lib : SchemaLib) (cfg : ValidationConfig) :
    Option SpecValidator × String × List String :=
  match specValidatorInit lib cfg.xsd cfg.version cfg.schemaName with
  | .ok v => (some v, "", [])
  | .error e =>
      if strContainsSub e loadMarker then
        match cfg.fallbackXsd with
        | some fb =>
            let warning :=
              "WARNING: Unable to initialize Rosetta METS-validator from \x27"
                ++ cfg.xsd ++ "\x27: " ++ e ++ " Trying to load fallback.."
            (match specValidatorInit lib fb cfg.fallbackVersion cfg.fallbackName with
             | .ok v => (some v, warning, [warning])
             | .error _ => (none, e, [warning]))
        | none => (none, e, [])
      else (none, e, [])

/-- Model of the Rosetta METS-validator part of BuildView.__init__:
when validation is active and make_validator yields no validator, the
component refuses to start (RuntimeError). -/
def initRosettaMetsValidator (lib : SchemaLib) (cfg : ValidationConfig) :
    Except String (Option SpecValidator) :=
  if cfg.active then
    match makeValidator lib cfg with
    | (some v, _, _) => .ok (some v)
    | (none, msg, _) =>
        .error ("Unable to initialize Rosetta METS-validator from \x27"
          ++ cfg.fallbackXsd.getD cfg.xsd ++ "\x27: " ++ msg
          ++ " Consider disabling option \x27VALIDATION_ROSETTA_METS_ACTIVE\x27.")
  else .ok none

/-- A schema-load failure message always carries the marker. -/
theorem listHasPre_refl : ∀ l : List Char, listHasPre l l = true
  | [] => rfl
  | a :: as => by simp [listHasPre, listHasPre_refl as]

theorem listHasPre_append : ∀ l t : List Char, listHasPre l (l ++ t) = true
  | [], _ => rfl
  | a :: as, t => by simp [listHasPre, listHasPre_append as t]

theorem strContainsSub_of_append (pat t : String) :
    strContainsSub (pat ++ t) pat = true := by
  have h : (pat ++ t).data = pat.data ++ t.data := String.data_append pat t
  unfold strContainsSub
  rw [h]
  cases hp : pat.data with
  | nil => cases ht : t.data with
    | nil => simp [listHasSub, listHasPre, hp]
    | cons c cs => simp [listHasSub, listHasPre, hp]
  | cons c cs =>
    have : listHasPre (c :: cs) ((c :: cs) ++ t.data) = true :=
      listHasPre_append (c :: cs) t.data
    simp only [hp, List.cons_append, listHasSub]
    rw [show c :: cs.append t.data = (c :: cs) ++ t.data from rfl, this]
    simp

/-- Load failures of the spec-modelled validator carry the marker. -/
theorem loadMarker_in_load_failure (s : String) :
    strContainsSub (loadMarker ++ s) loadMarker = true :=
  strContainsSub_of_append loadMarker s

/-- C3: the marker-driven fallback protocol.  The primary validator is
returned untouched when it constructs; a second construction from the
fallback source happens (observable through the emitted warning)
exactly when the primary construction fails with the marker and a
fallback is configured; on fallback success that validator is the
result; with validation active the view refuses to start exactly when
no validator was obtained, which happens exactly when the primary
fails and the marker-gated fallback path does not produce one. -/
theorem claim_C3_fallback_protocol (lib : SchemaLib) (cfg : ValidationConfig) :
    (∀ v, specValidatorInit lib cfg.xsd cfg.version cfg.schemaName = .ok v →
      makeValidator lib cfg = (some v, "", [])) ∧
    ((makeValidator lib cfg).2.2 ≠ [] ↔
      ∃ e, specValidatorInit lib cfg.xsd cfg.version cfg.schemaName = .error e ∧
        strContainsSub e loadMarker = true ∧ cfg.fallbackXsd ≠ none) ∧
    (∀ e fb v, specValidatorInit lib cfg.xsd cfg.version cfg.schemaName = .error e →
      strContainsSub e loadMarker = true → cfg.fallbackXsd = some fb →
      specValidatorInit lib fb cfg.fallbackVersion cfg.fallbackName = .ok v →
      (makeValidator lib cfg).1 = some v ∧ (makeValidator lib cfg).2.2 ≠ []) ∧
    (cfg.active = true →
      ((∃ err, initRosettaMetsValidator lib cfg = .error err) ↔
        (makeValidator lib cfg).1 = none)) ∧
    ((makeValidator lib cfg).1 = none ↔
      ∃ e, specValidatorInit lib cfg.xsd cfg.version cfg.schemaName = .error e ∧
        ¬(strContainsSub e loadMarker = true ∧
          ∃ fb v, cfg.fallbackXsd = some fb ∧
            specValidatorInit lib fb cfg.fallbackVersion cfg.fallbackName = .ok v)) := by
  cases hp : specValidatorInit lib cfg.xsd cfg.version cfg.schemaName with
  | ok v =>
      refine ⟨?_, ?_, ?_, ?_, ?_⟩
      · intro w hw
        cases hw
        simp [makeValidator, hp]
      · simp [makeValidator, hp]
      · intro e fb w he
        cases he
      · intro ha
        simp [initRosettaMetsValidator, ha, makeValidator, hp]
      · simp [makeValidator, hp]
  | error e =>
      by_cases hm : strContainsSub e loadMarker = true
      · cases hf : cfg.fallbackXsd with
        | none =>
            refine ⟨?_, ?_, ?_, ?_, ?_⟩
            · intro w hw
              cases hw
            · simp [makeValidator, hp, hm, hf]
            · intro e2 fb w he2 hm2 hfb
              cases hfb
            · intro ha
              simp [initRosettaMetsValidator, ha, makeValidator, hp, hm, hf]
            · simp [makeValidator, hp, hm, hf]
        | some fb =>
            cases hfb : specValidatorInit lib fb cfg.fallbackVersion cfg.fallbackName with
            | ok w =>
                refine ⟨?_, ?_, ?_, ?_, ?_⟩
                · intro u hu
                  cases hu
                · simp [makeValidator, hp, hm, hf, hfb]
                · intro e2 fb2 w2 he2 hm2 hfb2 hok2
                  cases he2
                  cases hfb2
                  rw [hfb] at hok2
                  cases hok2
                  simp [makeValidator, hp, hm, hf, hfb]
                · intro ha
                  simp [initRosettaMetsValidator, ha, makeValidator, hp, hm, hf, hfb]
                · simp [makeValidator, hp, hm, hf, hfb]
            | error e2 =>
                refine ⟨?_, ?_, ?_, ?_, ?_⟩
                · intro u hu
                  cases hu
                · simp [makeValidator, hp, hm, hf, hfb]
                · intro e3 fb3 w3 he3 hm3 hfb3 hok3
                  cases hfb3
                  rw [hfb] at hok3
                  cases hok3
                · intro ha
                  simp [initRosettaMetsValidator, ha, makeValidator, hp, hm, hf, hfb]
                · simp [makeValidator, hp, hm, hf, hfb]
      · refine ⟨?_, ?_, ?_, ?_, ?_⟩
        · intro w hw
          cases hw
        · simp [makeValidator, hp, hm]
        · intro e2 fb w he2 hm2 hfb
          cases he2
          exact absurd hm2 hm
        · intro ha
          simp [initRosettaMetsValidator, ha, makeValidator, hp, hm]
        · simp [makeValidator, hp, hm]

/-- Witness for C3: a library whose 1.0 loader fails and whose 1.1
loader succeeds, a failing primary and a working fallback. -/
theorem claim_C3_witness :
    (∀ v, specValidatorInit
        ⟨fun _ => .error "io", fun _ => .error "io", fun _ => .ok (fun _ => ParseResult.wellFormed [])⟩
        "p.xsd" (some "1.0") none = .ok v →
      makeValidator
        ⟨fun _ => .error "io", fun _ => .error "io", fun _ => .ok (fun _ => ParseResult.wellFormed [])⟩
        { active := true, xsd := "p.xsd", version := some "1.0",
          fallbackXsd := some "f.xsd", fallbackVersion := some "1.1" } = (some v, "", [])) ∧
    ((makeValidator
        ⟨fun _ => .error "io", fun _ => .error "io", fun _ => .ok (fun _ => ParseResult.wellFormed [])⟩
        { active := true, xsd := "p.xsd", version := some "1.0",
          fallbackXsd := some "f.xsd", fallbackVersion := some "1.1" }).2.2 ≠ [] ↔
      ∃ e, specValidatorInit
          ⟨fun _ => .error "io", fun _ => .error "io", fun _ => .ok (fun _ => ParseResult.wellFormed [])⟩
          "p.xsd" (some "1.0") none = .error e ∧
        strContainsSub e loadMarker = true ∧
        (some "f.xsd" : Option String) ≠ none) ∧
    (∀ e fb v, specValidatorInit
        ⟨fun _ => .error "io", fun _ => .error "io", fun _ => .ok (fun _ => ParseResult.wellFormed [])⟩
        "p.xsd" (some "1.0") none = .error e →
      strContainsSub e loadMarker = true → (some "f.xsd" : Option String) = some fb →
      specValidatorInit
          ⟨fun _ => .error "io", fun _ => .error "io", fun _ => .ok (fun _ => ParseResult.wellFormed [])⟩
          fb (some "1.1") none = .ok v →
      (makeValidator
        ⟨fun _ => .error "io", fun _ => .error "io", fun _ => .ok (fun _ => ParseResult.wellFormed [])⟩
        { active := true, xsd := "p.xsd", version := some "1.0",
          fallbackXsd := some "f.xsd", fallbackVersion := some "1.1" }).1 = some v ∧
      (makeValidator
        ⟨fun _ => .error "io", fun _ => .error "io", fun _ => .ok (fun _ => ParseResult.wellFormed [])⟩
        { active := true, xsd := "p.xsd", version := some "1.0",
          fallbackXsd := some "f.xsd", fallbackVersion := some "1.1" }).2.2 ≠ []) ∧
    (true = true →
      ((∃ err, initRosettaMetsValidator
          ⟨fun _ => .error "io", fun _ => .error "io", fun _ => .ok (fun _ => ParseResult.wellFormed [])⟩
          { active := true, xsd := "p.xsd", version := some "1.0",
            fallbackXsd := some "f.xsd", fallbackVersion := some "1.1" } = .error err) ↔
        (makeValidator
          ⟨fun _ => .error "io", fun _ => .error "io", fun _ => .ok (fun _ => ParseResult.wellFormed [])⟩
          { active := true, xsd := "p.xsd", version := some "1.0",
            fallbackXsd := some "f.xsd", fallbackVersion := some "1.1" }).1 = none)) ∧
    ((makeValidator
        ⟨fun _ => .error "io", fun _ => .error "io", fun _ => .ok (fun _ => ParseResult.wellFormed [])⟩
        { active := true, xsd := "p.xsd", version := some "1.0",
          fallbackXsd := some "f.xsd", fallbackVersion := some "1.1" }).1 = none ↔
      ∃ e, specValidatorInit
          ⟨fun _ => .error "io", fun _ => .error "io", fun _ => .ok (fun _ => ParseResult.wellFormed [])⟩
          "p.xsd" (some "1.0") none = .error e ∧
        ¬(strContainsSub e loadMarker = true ∧
          ∃ fb v, (some "f.xsd" : Option String) = some fb ∧
            specValidatorInit
                ⟨fun _ => .error "io", fun _ => .error "io", fun _ => .ok (fun _ => ParseResult.wellFormed [])⟩
                fb (some "1.1") none = .ok v)) :=
  claim_C3_fallback_protocol
    ⟨fun _ => .error "io", fun _ => .error "io", fun _ => .ok (fun _ => ParseResult.wellFormed [])⟩
    { active := true, xsd := "p.xsd", version := some "1.0",
      fallbackXsd := some "f.xsd", fallbackVersion := some "1.1" }

/-! ## Properties of the descriptive-section sort (claim C5) -/

namespace IECompiler

theorem keyLe_total : ∀ k1 k2 : Nat × List Char × List Char,
    keyLe k1 k2 = true ∨ keyLe k2 k1 = true := by
  intro ⟨n1, t1, x1⟩ ⟨n2, t2, x2⟩
  by_cases hn : n1 = n2
  · subst hn
    by_cases ht : t1 = t2
    · subst ht
      simpa [keyLe] using listLe_total x1 x2
    · have ht2 : t2 ≠ t1 := fun h => ht h.symm
      simpa [keyLe, ht, ht2] using listLe_total t1 t2
  · have hn2 : n2 ≠ n1 := fun h => hn h.symm
    simp only [keyLe, if_neg hn, if_neg hn2, decide_eq_true_eq]
    omega

theorem keyLe_trans : ∀ k1 k2 k3 : Nat × List Char × List Char,
    keyLe k1 k2 = true → keyLe k2 k3 = true → keyLe k1 k3 = true := by
  intro ⟨n1, t1, x1⟩ ⟨n2, t2, x2⟩ ⟨n3, t3, x3⟩ h1 h2
  by_cases h12 : n1 = n2 <;> by_cases h23 : n2 = n3
  · subst h12
    subst h23
    simp only [keyLe, if_pos rfl] at h1 h2 ⊢
    by_cases t12 : t1 = t2 <;> by_cases t23 : t2 = t3
    · subst t12
      subst t23
      simp only [if_pos rfl] at h1 h2 ⊢
      exact listLe_trans h1 h2
    · subst t12
      simpa [t23] using h2
    · subst t23
      simpa [t12] using h1
    · simp only [if_neg t12] at h1
      simp only [if_neg t23] at h2
      have h13 : listLe t1 t3 = true := listLe_trans h1 h2
      have t13 : t1 ≠ t3 := by
        intro hh
        subst hh
        exact t12 (listLe_antisymm h1 h2)
      simp [t13, h13]
  · subst h12
    simp only [keyLe, if_pos rfl] at h1
    simpa [keyLe, h23] using h2
  · subst h23
    simpa [keyLe, h12] using h1
  · simp only [keyLe, if_neg h12, decide_eq_true_eq] at h1
    simp only [keyLe, if_neg h23, decide_eq_true_eq] at h2
    have h13 : n1 < n3 := by omega
    have hne : n1 ≠ n3 := by omega
    simp [keyLe, hne, h13]

theorem keyLe_antisymm : ∀ k1 k2 : Nat × List Char × List Char,
    keyLe k1 k2 = true → keyLe k2 k1 = true → k1 = k2 := by
  intro ⟨n1, t1, x1⟩ ⟨n2, t2, x2⟩ h1 h2
  by_cases hn : n1 = n2
  · subst hn
    simp only [keyLe, if_pos rfl] at h1 h2
    by_cases ht : t1 = t2
    · subst ht
      simp only [if_pos rfl] at h1 h2
      rw [listLe_antisymm h1 h2]
    · have ht2 : t2 ≠ t1 := fun h => ht h.symm
      simp only [if_neg ht] at h1
      simp only [if_neg ht2] at h2
      exact absurd (listLe_antisymm h1 h2) ht
  · have hn2 : n2 ≠ n1 := fun h => hn h.symm
    simp only [keyLe, if_neg hn, if_neg hn2, decide_eq_true_eq] at h1 h2
    omega

end IECompiler

open IECompiler in
instance : IsTotal Xml dmdRel :=
  ⟨fun a b => keyLe_total (dmdKeyOf a) (dmdKeyOf b)⟩

open IECompiler in
instance : IsTrans Xml dmdRel :=
  ⟨fun a b c => keyLe_trans (dmdKeyOf a) (dmdKeyOf b) (dmdKeyOf c)⟩

open IECompiler in
/-- Two lists that are permutations of each other, both sorted by the
descriptive-section relation, are equal provided no two of their
elements share a sort key. -/
theorem eq_of_perm_of_sorted_dmd :
    ∀ {l1 l2 : List Xml},
      (∀ a ∈ l1, ∀ b ∈ l1, dmdKeyOf a = dmdKeyOf b → a = b) →
      l1.Perm l2 → l1.Sorted dmdRel → l2.Sorted dmdRel → l1 = l2
  | [], l2, _, hperm, _, _ => List.Perm.nil_eq hperm
  | a :: t1, l2, hinj, hperm, hs1, hs2 => by
    cases l2 with
    | nil => exact absurd hperm.symm (by simp)
    | cons b t2 =>
      have hab : a = b := by
        have hamem : a ∈ b :: t2 := hperm.mem_iff.mp (List.mem_cons_self a t1)
        have hbmem : b ∈ a :: t1 := hperm.mem_iff.mpr (List.mem_cons_self b t2)
        rcases List.mem_cons.mp hamem with h | h
        · exact h
        · rcases List.mem_cons.mp hbmem with h2 | h2
          · exact h2.symm
          · have hba : dmdRel b a := List.rel_of_sorted_cons hs2 a h
            have hab2 : dmdRel a b := List.rel_of_sorted_cons hs1 b h2
            exact hinj a (List.mem_cons_self a t1) b
              (List.mem_cons_of_mem a h2)
              (keyLe_antisymm (dmdKeyOf a) (dmdKeyOf b) hab2 hba)
      subst hab
      have ht : t1 = t2 :=
        eq_of_perm_of_sorted_dmd
          (fun x hx y hy => hinj x (List.mem_cons_of_mem a hx) y
            (List.mem_cons_of_mem a hy))
          hperm.cons_inv hs1.of_cons hs2.of_cons
      rw [ht]

namespace IECompiler

theorem dmdRecordChildren_sorted (dcmId : String) (bag : Baginfo)
    (dcXml : Option (List Xml)) :
    List.Sorted dmdRel (dmdRecordChildren dcmId bag dcXml) :=
  List.sorted_insertionSort dmdRel (dmdAccum dcmId bag dcXml)

theorem dmdRecordChildren_perm (dcmId : String) (bag : Baginfo)
    (dcXml : Option (List Xml)) :
    (dmdRecordChildren dcmId bag dcXml).Perm (dmdAccum dcmId bag dcXml) :=
  List.perm_insertionSort dmdRel (dmdAccum dcmId bag dcXml)

end IECompiler

open IECompiler in
/-- C5 as amended: a secondary child whose exact (tag, text) pair was
already added from baginfo is skipped; the accumulated children are
sorted by the (canonical-order index, tag, text-or-empty) triple; and
the resulting sequence is independent of the order in which the
secondary document supplies its children provided no two accumulated
children share the same sort key (children sharing a key, for example
differing only in attributes, keep their supply order under the
stable sort, so in general the order can matter). -/
theorem claim_C5_dmdsec_sort (bag : Baginfo) (dcmId : String) (dc dc2 : List Xml)
    (hperm : dc.Perm dc2)
    (hnd : ((dmdAccum dcmId bag (some dc)).map dmdKeyOf).Nodup) :
    (∀ e, e ∈ dmdKept bag (some dc) ↔
      e ∈ dc ∧ isDuplicate (fromBaginfoPairs bag) e = false) ∧
    List.Sorted dmdRel (dmdRecordChildren dcmId bag (some dc)) ∧
    (dmdRecordChildren dcmId bag (some dc)).Perm
      (Xml.elem (XMLNS.dcterms ++ "identifier") [] (some dcmId) [] ::
        baginfoElems bag ++
        dc.filter (fun e => !(isDuplicate (fromBaginfoPairs bag) e))) ∧
    dmdRecordChildren dcmId bag (some dc) =
      dmdRecordChildren dcmId bag (some dc2) := by
  refine ⟨?_, dmdRecordChildren_sorted dcmId bag (some dc), ?_, ?_⟩
  · intro e
    simp [dmdKept, List.mem_filter]
  · exact dmdRecordChildren_perm dcmId bag (some dc)
  · have haccPerm : (dmdAccum dcmId bag (some dc)).Perm
        (dmdAccum dcmId bag (some dc2)) := by
      unfold dmdAccum dmdKept
      exact List.Perm.cons _ (List.Perm.append_left _ (hperm.filter _))
    have hinj : ∀ a ∈ dmdAccum dcmId bag (some dc),
        ∀ b ∈ dmdAccum dcmId bag (some dc), dmdKeyOf a = dmdKeyOf b → a = b :=
      fun a ha b hb => List.inj_on_of_nodup_map hnd ha hb
    have hsortPerm : (dmdRecordChildren dcmId bag (some dc)).Perm
        (dmdRecordChildren dcmId bag (some dc2)) :=
      ((dmdRecordChildren_perm dcmId bag (some dc)).trans haccPerm).trans
        (dmdRecordChildren_perm dcmId bag (some dc2)).symm
    have hinjSort : ∀ a ∈ dmdRecordChildren dcmId bag (some dc),
        ∀ b ∈ dmdRecordChildren dcmId bag (some dc),
        dmdKeyOf a = dmdKeyOf b → a = b := by
      intro a ha b hb
      exact hinj a ((dmdRecordChildren_perm dcmId bag (some dc)).mem_iff.mp ha)
        b ((dmdRecordChildren_perm dcmId bag (some dc)).mem_iff.mp hb)
    exact eq_of_perm_of_sorted_dmd hinjSort hsortPerm
      (dmdRecordChildren_sorted dcmId bag (some dc))
      (dmdRecordChildren_sorted dcmId bag (some dc2))

/-- A baginfo holding only the three composite-identifier keys. -/
def bagMinimal : Baginfo :=
  [("Source-Organization", BagVal.str "s"),
   ("Origin-System-Identifier", BagVal.str "o"),
   ("External-Identifier", BagVal.str "e")]

/-- Two secondary DC children sharing tag and text but differing in an
attribute. -/
def dcChildA : Xml := Xml.elem (XMLNS.dc ++ "title") [("a", "1")] (some "t") []

def dcChildB : Xml := Xml.elem (XMLNS.dc ++ "title") [("a", "2")] (some "t") []

open IECompiler in
/-- C5 counterexample: the element sequence of the descriptive section
is not independent of the order in which the secondary document
supplies its children: two children sharing (tag, text) but differing
in an attribute keep their supply order under the stable sort, so the
two supply orders give different sequences. -/
theorem claim_C5_counterexample :
    ([dcChildA, dcChildB].Perm [dcChildB, dcChildA]) ∧
    (dmdRecordChildren "cid" bagMinimal (some [dcChildA, dcChildB])).map Xml.attrs ≠
      (dmdRecordChildren "cid" bagMinimal (some [dcChildB, dcChildA])).map Xml.attrs :=
  ⟨List.Perm.swap dcChildB dcChildA [], by decide⟩

open IECompiler in
/-- Witness for the amended C5 on a concrete input whose accumulated
children have pairwise distinct sort keys. -/
theorem claim_C5_witness :
    ([dcChildA].Perm [dcChildA] ∧
      ((dmdAccum "cid" bagMinimal (some [dcChildA])).map dmdKeyOf).Nodup) ∧
    ((∀ e, e ∈ dmdKept bagMinimal (some [dcChildA]) ↔
        e ∈ [dcChildA] ∧ isDuplicate (fromBaginfoPairs bagMinimal) e = false) ∧
      List.Sorted dmdRel (dmdRecordChildren "cid" bagMinimal (some [dcChildA])) ∧
      (dmdRecordChildren "cid" bagMinimal (some [dcChildA])).Perm
        (Xml.elem (XMLNS.dcterms ++ "identifier") [] (some "cid") [] ::
          baginfoElems bagMinimal ++
          [dcChildA].filter (fun e => !(isDuplicate (fromBaginfoPairs bagMinimal) e))) ∧
      dmdRecordChildren "cid" bagMinimal (some [dcChildA]) =
        dmdRecordChildren "cid" bagMinimal (some [dcChildA])) :=
  ⟨⟨List.Perm.refl _, by decide⟩,
   claim_C5_dmdsec_sort bagMinimal "cid" [dcChildA] [dcChildA]
     (List.Perm.refl _) (by decide)⟩

/-! ## Referential integrity of the file inventory (claim C7) -/

theorem pyNat_data (n : Nat) : (pyNat n).data = pyNatL n := rfl

theorem pyNatL_no_dash (n : Nat) : ∀ c ∈ pyNatL n, c ≠ '-' :=
  pyNatL_digits n

theorem splitAtDash : ∀ {xs xs' ys ys' : List Char},
    (∀ c ∈ xs, c ≠ '-') → (∀ c ∈ xs', c ≠ '-') →
    xs ++ '-' :: ys = xs' ++ '-' :: ys' →
    xs = xs' ∧ ys = ys'
  | [], [], ys, ys', _, _, h => by simpa using h
  | [], c :: t, ys, ys', _, hx', h => by
    exfalso
    simp only [List.nil_append, List.cons_append, List.cons.injEq] at h
    exact hx' c (List.mem_cons_self c t) h.1.symm
  | c :: t, [], ys, ys', hx, _, h => by
    exfalso
    simp only [List.nil_append, List.cons_append, List.cons.injEq] at h
    exact hx c (List.mem_cons_self c t) h.1
  | c :: t, c' :: t', ys, ys', hx, hx', h => by
    simp only [List.cons_append, List.cons.injEq] at h
    obtain ⟨rfl, h2⟩ := h
    obtain ⟨h3, h4⟩ := splitAtDash
      (fun d hd => hx d (List.mem_cons_of_mem c hd))
      (fun d hd => hx' d (List.mem_cons_of_mem c hd)) h2
    exact ⟨by rw [h3], h4⟩

namespace IECompiler

theorem mkRepAmdId_inj : Function.Injective mkRepAmdId := by
  intro a b h
  have hd := congrArg String.data h
  simp only [mkRepAmdId, String.data_append, pyNat_data, List.append_assoc] at hd
  have h1 := List.append_cancel_left hd
  exact pyNatL_inj (List.append_cancel_right h1)

theorem mkFidAmdId_inj {a b a2 b2 : Nat}
    (h : mkFidAmdId a b = mkFidAmdId a2 b2) : a = a2 ∧ b = b2 := by
  have hd := congrArg String.data h
  simp only [mkFidAmdId, String.data_append, pyNat_data, List.append_assoc] at hd
  have h1 := List.append_cancel_left hd
  simp only [List.singleton_append] at h1
  obtain ⟨h2, h3⟩ := splitAtDash (pyNatL_no_dash a) (pyNatL_no_dash a2) h1
  exact ⟨pyNatL_inj h2, pyNatL_inj (List.append_cancel_right h3)⟩

theorem mkRepAmdId_ne_ie (n : Nat) : mkRepAmdId n ≠ "ie-amd" := by
  intro h
  have hd := congrArg String.data h
  have hr : ("rep" : String).data = ['r', 'e', 'p'] := by decide
  have hi : ("ie-amd" : String).data = ['i', 'e', '-', 'a', 'm', 'd'] := by
    decide
  simp only [mkRepAmdId, String.data_append, hr, hi, List.append_assoc,
    List.cons_append, List.cons.injEq] at hd
  exact absurd hd.1 (by decide)

theorem mkFidAmdId_ne_ie (n k : Nat) : mkFidAmdId n k ≠ "ie-amd" := by
  intro h
  have hd := congrArg String.data h
  have hf : ("fid" : String).data = ['f', 'i', 'd'] := by decide
  have hi : ("ie-amd" : String).data = ['i', 'e', '-', 'a', 'm', 'd'] := by
    decide
  simp only [mkFidAmdId, String.data_append, hf, hi, List.append_assoc,
    List.cons_append, List.cons.injEq] at hd
  exact absurd hd.1 (by decide)

theorem mkRepAmdId_ne_mkFidAmdId (n a b : Nat) :
    mkRepAmdId n ≠ mkFidAmdId a b := by
  intro h
  have hd := congrArg String.data h
  have hr : ("rep" : String).data = ['r', 'e', 'p'] := by decide
  have hf : ("fid" : String).data = ['f', 'i', 'd'] := by decide
  simp only [mkRepAmdId, mkFidAmdId, String.data_append, hr, hf,
    List.append_assoc, List.cons_append, List.cons.injEq] at hd
  exact absurd hd.1 (by decide)

/-- The amdSec IDs generated for representations. -/
theorem rep_amdsecs_ids (reps : List Representation) :
    (compile_rep_amdsecs reps).map (fun x => x.getAttr "ID") =
      reps.map (fun r => some (mkRepAmdId r.index)) := by
  induction reps with
  | nil => rfl
  | cons r rest ih =>
      simp [compile_rep_amdsecs, Xml.getAttr, Xml.attrs, List.lookup]

/-- The amdSec IDs generated for files. -/
theorem file_amdsecs_ids (reps : List Representation) :
    (compile_file_amdsecs reps).map (fun x => x.getAttr "ID") =
      reps.flatMap (fun r => r.files.map (fun f => some (mkFidAmdId r.index f.index))) := by
  induction reps with
  | nil => rfl
  | cons r rest ih =>
      simp only [compile_file_amdsecs] at ih ⊢
      simp only [List.flatMap_cons, List.map_append]
      rw [ih]
      simp [Xml.getAttr, Xml.attrs, List.lookup, List.map_map, Function.comp]

/-- The ADMID references of the file groups in the inventory. -/
theorem filesec_grp_admids (reps : List Representation) :
    (compile_filesec reps).children.map (fun g => g.getAttr "ADMID") =
      reps.map (fun r => some (mkRepAmdId r.index)) := by
  induction reps with
  | nil => rfl
  | cons r rest ih =>
      simp [compile_filesec, Xml.children, Xml.getAttr, Xml.attrs, List.lookup]

/-- The ADMID references of the file entries in the inventory. -/
theorem filesec_file_admids (reps : List Representation) :
    (compile_filesec reps).children.flatMap
        (fun g => g.children.map (fun f => f.getAttr "ADMID")) =
      reps.flatMap (fun r => r.files.map (fun f => some (mkFidAmdId r.index f.index))) := by
  induction reps with
  | nil => rfl
  | cons r rest ih =>
      simp only [compile_filesec, Xml.children] at ih ⊢
      simp only [List.map_cons, List.flatMap_cons]
      rw [ih]
      simp [Xml.getAttr, Xml.attrs, List.lookup, List.map_map, Function.comp]

/-- The per-file amdSec IDs are pairwise distinct when representation
indices are pairwise distinct and file indices are distinct within
each representation. -/
theorem fid_ids_nodup : ∀ (reps : List Representation),
    (reps.map Representation.index).Nodup →
    (∀ r ∈ reps, (r.files.map File.index).Nodup) →
    (reps.flatMap (fun r => r.files.map (fun f => mkFidAmdId r.index f.index))).Nodup
  | [], _, _ => List.nodup_nil
  | r :: rest, hidx, hfiles => by
    simp only [List.flatMap_cons]
    refine List.Nodup.append ?_ ?_ ?_
    · have h1 : (r.files.map File.index).Nodup :=
        hfiles r (List.mem_cons_self r rest)
      have h2 : r.files.map (fun f => mkFidAmdId r.index f.index) =
          (r.files.map File.index).map (fun k => mkFidAmdId r.index k) := by
        rw [List.map_map]
        rfl
      rw [h2]
      exact h1.map (fun x y hxy => (mkFidAmdId_inj hxy).2)
    · exact fid_ids_nodup rest (by simpa using hidx.of_cons)
        (fun x hx => hfiles x (List.mem_cons_of_mem r hx))
    · intro a ha hb
      obtain ⟨f, hf, rfl⟩ := List.mem_map.mp ha
      obtain ⟨r2, hr2, hmem⟩ := List.mem_flatMap.mp hb
      obtain ⟨f2, hf2, heq⟩ := List.mem_map.mp hmem
      have hri : r.index = r2.index := (mkFidAmdId_inj heq.symm).1
      have : r.index ∈ rest.map Representation.index := by
        rw [hri]
        exact List.mem_map_of_mem Representation.index hr2
      simp only [List.map_cons, List.nodup_cons] at hidx
      exact hidx.1 this

/-- The ADMID references carried by the file inventory. -/
def inventoryAdmids (reps : List Representation) : List (Option String) :=
  (compile_filesec reps).children.map (fun g => g.getAttr "ADMID") ++
  (compile_filesec reps).children.flatMap
    (fun g => g.children.map (fun f => f.getAttr "ADMID"))

/-- The IDs of every generated amdSec of one compile call: the ie-amd
section (compile_ie_amdsec always carries ID ie-amd), one per
representation and one per file. -/
def generatedAmdIds (reps : List Representation) : List (Option String) :=
  some "ie-amd" ::
    ((compile_rep_amdsecs reps).map (fun x => x.getAttr "ID") ++
     (compile_file_amdsecs reps).map (fun x => x.getAttr "ID"))

end IECompiler

theorem filter_eq_nil_of_not_mem {α : Type} [DecidableEq α] {a : α} :
    ∀ {l : List α}, a ∉ l → l.filter (fun x => decide (x = a)) = []
  | [], _ => rfl
  | x :: t, h => by
    have hx : ¬x = a := fun hq => h (hq ▸ List.mem_cons_self x t)
    simp only [List.filter_cons, decide_eq_true_eq]
    rw [if_neg (by simpa using hx)]
    exact filter_eq_nil_of_not_mem (fun ht => h (List.mem_cons_of_mem x ht))

theorem filter_eq_singleton_of_nodup {α : Type} [DecidableEq α] {a : α} :
    ∀ {l : List α}, l.Nodup → a ∈ l → l.filter (fun x => decide (x = a)) = [a]
  | [], _, ha => absurd ha (List.not_mem_nil a)
  | x :: t, hN, ha => by
    rw [List.nodup_cons] at hN
    by_cases hx : x = a
    · subst hx
      simp only [List.filter_cons, decide_eq_true_eq]
      rw [if_pos (by simp)]
      rw [filter_eq_nil_of_not_mem hN.1]
    · have ht : a ∈ t := by
        rcases List.mem_cons.mp ha with h | h
        · exact absurd h.symm hx
        · exact h
      simp only [List.filter_cons, decide_eq_true_eq]
      rw [if_neg (by simpa using hx)]
      exact filter_eq_singleton_of_nodup hN.2 ht

open IECompiler in
/-- C7: for representation lists produced by a successful derivation,
each file group references rep-N-amd, the ID of the amdSec generated
for representation N; each file entry references fid-N-M-amd, the ID
of the amdSec generated for file M of representation N; and every
ADMID in the file inventory equals the ID of exactly one generated
amdSec (filtering the generated IDs for it leaves exactly that one
element). -/
theorem claim_C7_referential_integrity (pf : PayloadFiles) (m : Manifests)
    (reps : List Representation)
    (h : generateRepresentationInfo pf m = some reps) :
    (compile_filesec reps).children.map (fun g => g.getAttr "ADMID") =
      (compile_rep_amdsecs reps).map (fun x => x.getAttr "ID") ∧
    (compile_filesec reps).children.flatMap
        (fun g => g.children.map (fun f => f.getAttr "ADMID")) =
      (compile_file_amdsecs reps).map (fun x => x.getAttr "ID") ∧
    ∀ a ∈ inventoryAdmids reps,
      (generatedAmdIds reps).filter (fun x => decide (x = a)) = [a] := by
  obtain ⟨-, hidx, -, hper⟩ := generateRepresentationInfo_eq_some h
  refine ⟨by rw [filesec_grp_admids, rep_amdsecs_ids],
    by rw [filesec_file_admids, file_amdsecs_ids], ?_⟩
  have hidxN : (reps.map Representation.index).Nodup := by
    rw [hidx]
    exact List.nodup_range' _ _
  have hfileN : ∀ r ∈ reps, (r.files.map File.index).Nodup := by
    intro r hr
    rw [(hper r hr).1]
    exact List.nodup_range' _ _
  have hrepStrN : (reps.map (fun r => mkRepAmdId r.index)).Nodup := by
    have : reps.map (fun r => mkRepAmdId r.index) =
        (reps.map Representation.index).map mkRepAmdId := by
      rw [List.map_map]
      rfl
    rw [this]
    exact hidxN.map mkRepAmdId_inj
  have hfidStrN :
      (reps.flatMap (fun r => r.files.map (fun f => mkFidAmdId r.index f.index))).Nodup :=
    fid_ids_nodup reps hidxN hfileN
  have hcomb :
      ("ie-amd" ::
        (reps.map (fun r => mkRepAmdId r.index) ++
         reps.flatMap (fun r => r.files.map (fun f => mkFidAmdId r.index f.index)))).Nodup := by
    rw [List.nodup_cons]
    refine ⟨?_, List.Nodup.append hrepStrN hfidStrN ?_⟩
    · intro hmem
      rcases List.mem_append.mp hmem with hmem | hmem
      · obtain ⟨r, hr, hr2⟩ := List.mem_map.mp hmem
        exact mkRepAmdId_ne_ie r.index hr2
      · obtain ⟨r, hr, hmem2⟩ := List.mem_flatMap.mp hmem
        obtain ⟨f, hf, hf2⟩ := List.mem_map.mp hmem2
        exact mkFidAmdId_ne_ie r.index f.index hf2
    · intro a ha hb
      obtain ⟨r, hr, rfl⟩ := List.mem_map.mp ha
      obtain ⟨r2, hr2, hmem2⟩ := List.mem_flatMap.mp hb
      obtain ⟨f, hf, hf2⟩ := List.mem_map.mp hmem2
      exact mkRepAmdId_ne_mkFidAmdId r.index r2.index f.index hf2.symm
  have hgen : generatedAmdIds reps =
      ("ie-amd" ::
        (reps.map (fun r => mkRepAmdId r.index) ++
         reps.flatMap (fun r => r.files.map (fun f => mkFidAmdId r.index f.index)))).map
        some := by
    rw [generatedAmdIds, rep_amdsecs_ids, file_amdsecs_ids]
    simp only [List.map_cons, List.map_append, List.map_map, List.map_flatMap]
    rfl
  have hgenN : (generatedAmdIds reps).Nodup := by
    rw [hgen]
    exact hcomb.map (Option.some_injective String)
  intro a ha
  apply filter_eq_singleton_of_nodup hgenN
  simp only [inventoryAdmids, filesec_grp_admids, filesec_file_admids] at ha
  rcases List.mem_append.mp ha with ha | ha
  · obtain ⟨r, hr, rfl⟩ := List.mem_map.mp ha
    simp only [generatedAmdIds, rep_amdsecs_ids, List.mem_cons, List.mem_append]
    exact Or.inr (Or.inl (List.mem_map_of_mem _ hr))
  · obtain ⟨r, hr, hmem2⟩ := List.mem_flatMap.mp ha
    obtain ⟨f, hf, rfl⟩ := List.mem_map.mp hmem2
    simp only [generatedAmdIds, file_amdsecs_ids, List.mem_cons, List.mem_append]
    refine Or.inr (Or.inr (List.mem_flatMap.mpr ⟨r, hr, List.mem_map_of_mem _ hf⟩))

open IECompiler in
/-- Witness for C7 at the concrete example payload. -/
theorem claim_C7_witness :
    generateRepresentationInfo pfExample mExample =
      some ((generateRepresentationInfo pfExample mExample).getD []) ∧
    ((compile_filesec ((generateRepresentationInfo pfExample mExample).getD [])).children.map
        (fun g => g.getAttr "ADMID") =
      (compile_rep_amdsecs ((generateRepresentationInfo pfExample mExample).getD [])).map
        (fun x => x.getAttr "ID") ∧
    (compile_filesec ((generateRepresentationInfo pfExample mExample).getD [])).children.flatMap
        (fun g => g.children.map (fun f => f.getAttr "ADMID")) =
      (compile_file_amdsecs ((generateRepresentationInfo pfExample mExample).getD [])).map
        (fun x => x.getAttr "ID") ∧
    ∀ a ∈ inventoryAdmids ((generateRepresentationInfo pfExample mExample).getD []),
      (generatedAmdIds ((generateRepresentationInfo pfExample mExample).getD [])).filter
        (fun x => decide (x = a)) = [a]) :=
  ⟨rfl, claim_C7_referential_integrity pfExample mExample _ rfl⟩

/-! ## Idempotence of compilation (claim C4)

lxml element append moves an element that already has a parent, so
compile_dmdsec transfers the non-duplicate dc.xml children into the
record being built; a second compile of the same Input Model then
finds them gone.  The input below makes that observable. -/

/-- An Input Model with the three required keys and one secondary DC
child that does not duplicate any baginfo entry. -/
def ipIdem : IP :=
  { baginfo := some bagMinimal,
    manifests := some [],
    payload_files := {},
    dc_xml := some [Xml.elem (XMLNS.dc ++ "title") [] (some "x") []] }

/-- The document produced by one IE compile call. -/
def ieCompileDoc (ip : IP) : Option Xml := (ieCompile ip).map (fun p => p.1)

/-- The Input Model as one IE compile call leaves it. -/
def ieCompileIP (ip : IP) : IP := ((ieCompile ip).map (fun p => p.2.1)).getD ip

/-- The number of children of the descriptive record of a compiled
document (root, then dmdSec, mdWrap, xmlData, record). -/
def dmdRecordChildCount (doc : Xml) : Option Nat :=
  ((((doc.children.head?).bind (fun d => d.children.head?)).bind
      (fun w => w.children.head?)).bind
      (fun xd => xd.children.head?)).map (fun r => r.children.length)

/-- C4 fails on the code: both compile calls succeed, but the second
document's descriptive record has fewer children than the first, and
the Input Model's secondary DC document loses its child in the first
call - the compile is neither read-only on the Input Model nor
idempotent. -/
theorem claim_C4_code_bug :
    (ieCompile ipIdem).isSome ∧
    (ieCompile (ieCompileIP ipIdem)).isSome ∧
    (ieCompileDoc ipIdem).map dmdRecordChildCount ≠
      (ieCompileDoc (ieCompileIP ipIdem)).map dmdRecordChildCount ∧
    (ieCompileIP ipIdem).dc_xml.map List.length ≠
      ipIdem.dc_xml.map List.length :=
  ⟨by decide, by decide, by decide, by decide⟩

end SipBuilder
